import Mathlib

/-!
# LinkCheck front-end server (`src/frontend/index.js`)

The module builds an Express application with two layers:

```
app.use(express.static(path.join(__dirname)));
app.get('*', (req, res) => { res.sendFile(path.join(__dirname, 'index.html')); });
```

The embedding below follows the module line by line.  What the two lines call
is library code (Express 4 router, `serve-static` 1.x, `send` 0.x, Node's POSIX
`path` module, `decodeURIComponent`); it is modelled with the defaults the
module leaves in place (`fallthrough: true`, `redirect: true`,
`index: ['index.html']`, `dotfiles` unset, no `extensions`, `acceptRanges`,
`etag` and `lastModified` on).

A request is a method, a URL pathname and the header fields that `send` reads.
The functions of the libraries that interpret the text of a header value (entity
tags, HTTP dates, token lists, byte ranges) are parameters of the embedding, the
structure `Helpers`; the control flow around them is modelled.

Handling a request is a function from the state before to a result and the state
after.  The state holds the files on disk, the module directory, the root
directory kept by the static middleware, and the `path` field of every layer of
the router, which `Layer.match` assigns.  The file system maps real paths to
regular files, directories and symbolic links; `fs.stat` and the read stream
follow links.  Permission errors are outside the model.
-/

namespace LinkCheck

/-! ## Data model -/

/-- HTTP request methods. -/
inductive Method
  | GET | HEAD | POST | PUT | DELETE | PATCH | OPTIONS
  deriving DecidableEq, Repr

/-- File contents, as a list of byte values. -/
abbrev Bytes := List Nat

/-- An absolute POSIX path, as the list of its segments (`/a/b` is `["a", "b"]`). -/
abbrev Path := List String

/-- What is stored at a real path: a regular file with its content and modification time, a
directory, or a symbolic link with its (absolute) target. -/
inductive Entry
  | file (content : Bytes) (mtime : Nat)
  | dir
  | link (target : Path)
  deriving DecidableEq, Repr

/-- The files on disk: what is stored at each real path, if anything. -/
abbrev FS := Path → Option Entry

/-- The header fields of a request that `send` reads. -/
structure Headers where
  ifMatch : Option String
  ifUnmodifiedSince : Option String
  ifNoneMatch : Option String
  ifModifiedSince : Option String
  ifRange : Option String
  range : Option String
  cacheControl : Option String
  deriving DecidableEq, Repr

/-- A request without any of the header fields that `send` reads. -/
def noHeaders : Headers :=
  ⟨none, none, none, none, none, none, none⟩

/-- An incoming request: HTTP method, URL pathname and header fields. -/
structure Request where
  method : Method
  path : String
  headers : Headers
  deriving DecidableEq, Repr

/-- The response that leaves the application. -/
inductive Response
  /-- Status 200 written by `send`: the file at `path` was streamed (`body` is empty for HEAD). -/
  | file (path : Path) (body : Bytes)
  /-- Status 206 written by `send`: one byte range of the file at `path` was streamed. -/
  | ranged (path : Path) (body : Bytes)
  /-- Status 304 written by `send` for a fresh conditional request: no body. -/
  | notModified (path : Path)
  /-- Status 301 written by the directory listener of `serve-static` (to the path plus `/`). -/
  | redirect
  /-- Status 200 written by the router for OPTIONS, the body listing the allowed methods. -/
  | allow (methods : List Method)
  /-- Written by the final handler: 404 when no layer answered, else the status of the error. -/
  | final (status : Nat)
  deriving DecidableEq, Repr

/-- The status code of a response. -/
def Response.status : Response → Nat
  | .file _ _ => 200
  | .ranged _ _ => 206
  | .notModified _ => 304
  | .redirect => 301
  | .allow _ => 200
  | .final s => s

/-! ## `decodeURIComponent` -/

/-- The value of a hexadecimal digit. -/
def hexVal (c : Char) : Option Nat :=
  if '0' ≤ c ∧ c ≤ '9' then some (c.toNat - 48)
  else if 'a' ≤ c ∧ c ≤ 'f' then some (c.toNat - 87)
  else if 'A' ≤ c ∧ c ≤ 'F' then some (c.toNat - 55)
  else none

/-- A unit of an encoded URI component: a literal character or a `%XX` escape. -/
inductive Tok
  | lit (c : Char)
  | byte (b : Nat)
  deriving DecidableEq, Repr

/-- Reading of the `%XX` escapes; a `%` not followed by two hexadecimal digits is an error. -/
def tokens : List Char → Option (List Tok)
  | [] => some []
  | '%' :: a :: b :: rest =>
    match hexVal a, hexVal b, tokens rest with
    | some h, some l, some ts => some (Tok.byte (16 * h + l) :: ts)
    | _, _, _ => none
  | '%' :: _ => none
  | c :: rest => (tokens rest).map (Tok.lit c :: ·)

/-- A continuation octet of UTF-8 (`10xxxxxx`), given as an escape. -/
def contByte : Tok → Option Nat
  | .byte b => if 128 ≤ b ∧ b < 192 then some (b - 128) else none
  | .lit _ => none

/-- A code point decoded from a multi-octet sequence is accepted when it is not overlong
(below `minimum`), not a surrogate and at most U+10FFFF. -/
def scalar (minimum v : Nat) : Option Char :=
  if minimum ≤ v ∧ v < 1114112 ∧ ¬ (55296 ≤ v ∧ v < 57344) then some (Char.ofNat v) else none

/-- Decoding of the escapes as UTF-8: an escape below 0x80 is the character itself, a lead
octet must be followed by its escaped continuation octets. -/
def utf8 : List Tok → Option (List Char)
  | [] => some []
  | .lit c :: rest => (utf8 rest).map (c :: ·)
  | .byte b :: rest =>
    if b < 128 then (utf8 rest).map (Char.ofNat b :: ·)
    else if 192 ≤ b ∧ b < 224 then
      match rest with
      | t1 :: rest1 =>
        match contByte t1, utf8 rest1 with
        | some c1, some cs => (scalar 128 ((b - 192) * 64 + c1)).map (· :: cs)
        | _, _ => none
      | _ => none
    else if 224 ≤ b ∧ b < 240 then
      match rest with
      | t1 :: t2 :: rest2 =>
        match contByte t1, contByte t2, utf8 rest2 with
        | some c1, some c2, some cs =>
          (scalar 2048 ((b - 224) * 4096 + c1 * 64 + c2)).map (· :: cs)
        | _, _, _ => none
      | _ => none
    else if 240 ≤ b ∧ b < 248 then
      match rest with
      | t1 :: t2 :: t3 :: rest3 =>
        match contByte t1, contByte t2, contByte t3, utf8 rest3 with
        | some c1, some c2, some c3, some cs =>
          (scalar 65536 ((b - 240) * 262144 + c1 * 4096 + c2 * 64 + c3)).map (· :: cs)
        | _, _, _, _ => none
      | _ => none
    else none

/-- The function `decodeURIComponent`; `none` stands for the `URIError` it throws. -/
def decodeURIComponent (s : List Char) : Option (List Char) :=
  (tokens s).bind utf8

/-! ## Node's `path` module (POSIX) -/

/-- Splitting of a string at every occurrence of a separator. -/
def splitChars (sep : Char) : List Char → List (List Char)
  | [] => [[]]
  | c :: cs =>
    if c = sep then [] :: splitChars sep cs
    else
      match splitChars sep cs with
      | p :: ps => (c :: p) :: ps
      | [] => [[c]]

/-- One step of `normalizeString`: the result so far (last segment first) and the next
segment. -/
def pushSegment (allowAboveRoot : Bool) (res : List String) (seg : String) : List String :=
  if seg = "" ∨ seg = "." then res
  else if seg = ".." then
    match res with
    | top :: res' =>
      if top = ".." then (if allowAboveRoot then ".." :: res else res) else res'
    | [] => if allowAboveRoot then [".."] else []
  else seg :: res

/-- The function `normalizeString(path, allowAboveRoot)` of `path`, on segments. -/
def normalizeString (segs : List String) (allowAboveRoot : Bool) : List String :=
  (segs.foldl (pushSegment allowAboveRoot) []).reverse

/-- The function `path.join` for an absolute first argument: the segments of all the arguments,
normalised; `path.resolve` of an absolute path is the same. -/
def join (base : Path) (more : List String) : Path :=
  normalizeString (base ++ more) false

/-! ## `send`: the lexical half, from a request path to segments -/

/-- The test `UP_PATH_REGEXP = /(?:^|[\\/])\.\.(?:[\\/]|$)/`: some piece of the path between
slashes or backslashes (or the ends) is exactly `..`. -/
def UP_PATH (segs : List String) : Bool :=
  segs.any fun s => (splitChars '\\' s.toList).any fun piece => piece = ['.', '.']

/-- The test `part[0] === '.'`. -/
def startsWithDot (part : String) : Bool :=
  match part.toList with
  | c :: _ => c = '.'
  | [] => false

/-- The function `containsDotFile(parts)`: a part longer than one character begins with a
dot. -/
def containsDotFile (parts : List String) : Bool :=
  parts.any fun part => decide (part.length > 1) && startsWithDot part

/-- The dotfile decision of `send` when the `dotfiles` option is unset (its legacy branch, with
`hidden` unset too): the path is ignored when it contains a dotfile and its last part begins
with a dot. -/
def dotfileIgnored (parts : List String) : Bool :=
  containsDotFile parts && (match parts.getLast? with
    | some last => startsWithDot last
    | none => false)

/-- The method `hasTrailingSlash()`: the request path, as received, ends in `/`. -/
def hasTrailingSlash (raw : String) : Bool :=
  raw.toList.getLast? = some '/'

/-- The parts `path.split(sep)` of the normalised relative path: its segments (`.` when there
is none), and an empty part after a trailing slash. -/
def relativeParts (decoded : List Char) (segs : List String) : List String :=
  if decoded = [] then [""]
  else (if segs = [] then ["."] else segs) ++ (if decoded.getLast? = some '/' then [""] else [])

/-- The outcome of the lexical half of `pipe`: the segments of the normalised relative path
and whether it ends in a separator, or the status of the error raised. -/
inductive Resolved
  | ok (segs : List String) (trailingSep : Bool)
  | error (status : Nat)
  deriving DecidableEq, Repr

/-- The lexical half of the method `pipe` of a `send` stream created with a root directory:
decode the path (400), reject a NUL (400), normalise `'.' + sep + path`, reject a path that
climbs out of the root (403), apply the dotfile rule (404). -/
def resolveRelative (raw : String) : Resolved :=
  match decodeURIComponent raw.toList with
  | none => .error 400
  | some decoded =>
    if decoded.contains (Char.ofNat 0) then .error 400
    else
      let segs := normalizeString ((splitChars '/' decoded).map String.mk) true
      if UP_PATH segs then .error 403
      else if dotfileIgnored (relativeParts decoded segs) then .error 404
      else .ok segs (decide (decoded.getLast? = some '/'))

/-! ## The file system: `fs.stat` and the read stream -/

/-- One pass over a path, from a directory `cur` already resolved: the entry reached, a
symbolic link met on the way (with the path that remains to be resolved: the target of the
link, then the rest), or nothing. -/
inductive Walk
  | found (real : Path) (entry : Entry)
  | jump (rest : List String)
  | missing
  deriving DecidableEq, Repr

/-- The pass itself: empty and `.` segments stay in place, `..` goes to the parent, a
directory is entered, a regular file ends the path (`ENOTDIR` if segments remain), a symbolic
link stops the pass. -/
def walk (fs : FS) : Path → List String → Walk
  | cur, [] => .found cur .dir
  | cur, seg :: rest =>
    if seg = "" ∨ seg = "." then walk fs cur rest
    else if seg = ".." then walk fs cur.dropLast rest
    else
      match fs (cur ++ [seg]) with
      | none => .missing
      | some (.link target) => .jump (target ++ rest)
      | some .dir => walk fs (cur ++ [seg]) rest
      | some (.file content mtime) =>
        if rest = [] then .found (cur ++ [seg]) (.file content mtime) else .missing

/-- The outcome of resolving a path: the real path and the file or directory stored there,
nothing (`ENOENT`, `ENOTDIR`), or too many symbolic links (`ELOOP`). -/
inductive Resolution
  | found (real : Path) (entry : Entry)
  | missing
  | loop
  deriving DecidableEq, Repr

/-- Resolution of a path from `/`, following at most `n - 1` symbolic links. -/
def resolve (fs : FS) : Nat → List String → Resolution
  | 0, _ => .loop
  | n + 1, segs =>
    match walk fs [] segs with
    | .found real entry => .found real entry
    | .jump rest => resolve fs n rest
    | .missing => .missing

/-- Resolution as the operating system does it: up to 40 symbolic links are followed. -/
def realpath (fs : FS) (path : Path) : Resolution :=
  resolve fs 41 path

/-- What `fs.stat` reports to `send`: a regular file with size and modification time, a
directory, an error that `send` answers with 404 (`ENOENT`, `ENOTDIR`), or another error,
answered with 500. -/
inductive Stats
  | file (size mtime : Nat)
  | directory
  | notFound
  | failed
  deriving DecidableEq, Repr

/-- The call `fs.stat(path)` on given files; a regular file named with a trailing separator
is `ENOTDIR`. -/
def statFS (fs : FS) (path : Path) (trailingSep : Bool) : Stats :=
  match realpath fs path with
  | .found _ (.file content mtime) =>
    if trailingSep then .notFound else .file content.length mtime
  | .found _ _ => .directory
  | .missing => .notFound
  | .loop => .failed

/-- The bytes `fs.createReadStream(path, { start, end })` delivers on given files: `len` bytes
from offset `start`. -/
def readFS (fs : FS) (path : Path) (start len : Nat) : Bytes :=
  match realpath fs path with
  | .found _ (.file content _) => (content.drop start).take len
  | _ => []

/-! ## The state -/

/-- The state a request is handled in: the files on disk, the module directory `__dirname`,
the root directory kept by the static middleware, and the `path` field of each layer of the
router's stack. -/
structure World where
  fs : FS
  dirname : Path
  root : Path
  layerPath : List (Option String)

/-- The call `fs.stat(path)`: reads the files, leaves the state as it is. -/
def fsStat (path : Path) (trailingSep : Bool) (w : World) : Stats × World :=
  (statFS w.fs path trailingSep, w)

/-- The read stream piped to the response: reads the files, leaves the state as it is. -/
def fsRead (path : Path) (start len : Nat) (w : World) : Bytes × World :=
  (readFS w.fs path start len, w)

/-- The assignment `this.path = path` of `Layer.match`, for the layer at position `i`. -/
def setLayerPath (i : Nat) (path : String) (w : World) : World :=
  { w with layerPath := w.layerPath.set i (some path) }

/-! ## `send`: conditional requests and ranges -/

/-- The result of `range-parser`: `-1` (unsatisfiable), `-2` (malformed), or the ranges as
pairs of first and last byte. -/
inductive Ranges
  | unsatisfiable
  | malformed
  | ok (ranges : List (Nat × Nat))
  deriving DecidableEq, Repr

/-- The functions of the libraries that interpret the text of header values, taken as
parameters: the entity tag of a file (`etag(stat)`, from size and modification time), the
text of its modification time (`toUTCString`), `parseHttpDate` (`none` for `NaN`),
`parseTokenList`, the test of `Cache-Control` for `no-cache`, and `range-parser` (with
`combine`). -/
structure Helpers where
  etag : Nat → Nat → String
  lastModified : Nat → String
  parseHttpDate : String → Option Nat
  parseTokenList : String → List String
  noCache : String → Bool
  parseRange : Nat → String → Ranges

/-- A header value as a JavaScript condition sees it: absent when missing or empty. -/
def truthy : Option String → Option String
  | some s => if s = "" then none else some s
  | none => none

/-- The method `isConditionalGET()`: one of `If-Match`, `If-Unmodified-Since`, `If-None-Match`,
`If-Modified-Since` is present. -/
def isConditionalGET (h : Headers) : Bool :=
  (truthy h.ifMatch).isSome || (truthy h.ifUnmodifiedSince).isSome ||
    (truthy h.ifNoneMatch).isSome || (truthy h.ifModifiedSince).isSome

/-- The comparison of a token of `If-Match` or `If-None-Match` with the entity tag. -/
def tagMatches (etag token : String) : Bool :=
  token = etag || token = "W/" ++ etag || "W/" ++ token = etag

/-- The method `isPreconditionFailure()`. -/
def isPreconditionFailure (lib : Helpers) (h : Headers) (size mtime : Nat) : Bool :=
  match truthy h.ifMatch with
  | some m =>
    lib.etag size mtime = "" ||
      (m ≠ "*" && (lib.parseTokenList m).all fun t => !tagMatches (lib.etag size mtime) t)
  | none =>
    match (truthy h.ifUnmodifiedSince).bind lib.parseHttpDate with
    | some unmodifiedSince =>
      match lib.parseHttpDate (lib.lastModified mtime) with
      | some lastModified => decide (lastModified > unmodifiedSince)
      | none => true
    | none => false

/-- The method `isFresh()` (the function `fresh`): the request is conditional, does not ask
for `no-cache`, and its validators match the file. -/
def isFresh (lib : Helpers) (h : Headers) (size mtime : Nat) : Bool :=
  if (truthy h.ifModifiedSince).isNone ∧ (truthy h.ifNoneMatch).isNone then false
  else if ((truthy h.cacheControl).map lib.noCache).getD false then false
  else
    (match truthy h.ifNoneMatch with
      | some noneMatch =>
        noneMatch = "*" ||
          (lib.etag size mtime ≠ "" &&
            (lib.parseTokenList noneMatch).any fun t => tagMatches (lib.etag size mtime) t)
      | none => true) &&
    (match truthy h.ifModifiedSince with
      | some modifiedSince =>
        (match lib.parseHttpDate (lib.lastModified mtime), lib.parseHttpDate modifiedSince with
          | some lastModified, some since => decide (lastModified ≤ since)
          | _, _ => false)
      | none => true)

/-- The test `haystack.indexOf(needle) !== -1`. -/
def occursIn (needle haystack : List Char) : Bool :=
  haystack.tails.any fun t => needle.isPrefixOf t

/-- The method `isRangeFresh()`: without `If-Range` the range stands; an `If-Range` with a
quote must contain the entity tag, any other must be a date not before the modification
time. -/
def isRangeFresh (lib : Helpers) (h : Headers) (size mtime : Nat) : Bool :=
  match truthy h.ifRange with
  | none => true
  | some ifRange =>
    if ifRange.toList.contains (Char.ofNat 34) then
      lib.etag size mtime ≠ "" && occursIn (lib.etag size mtime).toList ifRange.toList
    else
      match lib.parseHttpDate (lib.lastModified mtime), lib.parseHttpDate ifRange with
      | some lastModified, some since => decide (lastModified ≤ since)
      | _, _ => false

/-- The test `BYTES_RANGE_REGEXP = /^ *bytes=/` of the `Range` header. -/
def bytesRange (h : Headers) : Bool :=
  match h.range with
  | some r => "bytes=".toList.isPrefixOf (r.toList.dropWhile fun c => c = ' ')
  | none => false

/-- What a `send` stream ends in: a transfer of the whole file (200), of one range (206), a
304, the `directory` event, or the `error` event with a status, raised before or after the
`file` event. -/
inductive SendResult
  | file (path : Path) (body : Bytes)
  | ranged (path : Path) (body : Bytes)
  | notModified (path : Path)
  | directory
  | error (status : Nat) (afterFile : Bool)
  deriving DecidableEq, Repr

/-- The end of `send(path, stat)`: a HEAD request gets no body, any other the bytes read from
the file. -/
def stream (req : Request) (path : Path) (start len : Nat) (mk : Path → Bytes → SendResult)
    (w : World) : SendResult × World :=
  if req.method = .HEAD then (mk path [], w)
  else
    let r := fsRead path start len w
    (mk path r.1, r.2)

/-- The method `send(path, stat)`, after the `file` event: a conditional request whose
precondition fails is 412, a fresh one 304; a `Range` of bytes that cannot be satisfied is
416, a single range is served with 206; everything else is the whole file with 200. -/
def transfer (lib : Helpers) (req : Request) (path : Path) (size mtime : Nat) (w : World) :
    SendResult × World :=
  if isConditionalGET req.headers && isPreconditionFailure lib req.headers size mtime then
    (.error 412 true, w)
  else if isConditionalGET req.headers && isFresh lib req.headers size mtime then
    (.notModified path, w)
  else if bytesRange req.headers then
    match (if isRangeFresh lib req.headers size mtime
        then lib.parseRange size (req.headers.range.getD "") else .malformed) with
    | .unsatisfiable => (.error 416 true, w)
    | .ok [(first, last)] => stream req path first (last - first + 1) .ranged w
    | _ => stream req path 0 size .file w
  else stream req path 0 size .file w

/-! ## `send`: from segments to a file -/

/-- The method `sendFile(path)` of a `send` stream without `extensions`: a `stat` error is 404
(or 500), a directory raises the `directory` event, a file is transferred. -/
def sendFile (lib : Helpers) (req : Request) (path : Path) (trailingSep : Bool) (w : World) :
    SendResult × World :=
  let r := fsStat path trailingSep w
  match r.1 with
  | .notFound => (.error 404 false, r.2)
  | .failed => (.error 500 false, r.2)
  | .directory => (.directory, r.2)
  | .file size mtime => transfer lib req path size mtime r.2

/-- The method `sendIndex(path)` of a `send` stream with `index: ['index.html']`: the file
`index.html` of the directory is transferred; if it is missing or a directory, the error is
404; another `stat` error is 500. -/
def sendIndex (lib : Helpers) (req : Request) (path : Path) (w : World) :
    SendResult × World :=
  let r := fsStat (join path ["index.html"]) false w
  match r.1 with
  | .file size mtime => transfer lib req (join path ["index.html"]) size mtime r.2
  | .failed => (.error 500 false, r.2)
  | _ => (.error 404 false, r.2)

/-- The method `pipe` of a `send` stream created with a root directory, as `serve-static` does:
the path is resolved lexically and joined to the root; a request path ending in `/` is looked
up as a directory index, any other as a file. -/
def sendUnderRoot (lib : Helpers) (root : Path) (req : Request) (w : World) :
    SendResult × World :=
  match resolveRelative req.path with
  | .error status => (.error status false, w)
  | .ok segs trailingSep =>
    if hasTrailingSlash req.path then sendIndex lib req (join root segs) w
    else sendFile lib req (join root segs) trailingSep w

/-- The method `pipe` of a `send` stream created without a root, as `res.sendFile` does for an
absolute path: reject `..` (403), apply the dotfile rule to the parts of the path (404), then
`sendFile` the resolved path. -/
def sendAbsolute (lib : Helpers) (req : Request) (path : Path) (w : World) :
    SendResult × World :=
  if UP_PATH path then (.error 403 false, w)
  else if dotfileIgnored ("" :: path) then (.error 404 false, w)
  else sendFile lib req (join path []) false w

/-! ## Express: middleware, routes and the router -/

/-- What a handler does with a request: write the response, call `next()`, or call
`next(err)` with an error of the given status. -/
inductive Step
  | respond (r : Response)
  | next
  | nextErr (status : Nat)
  deriving DecidableEq, Repr

/-- The middleware returned by `express.static(root)` (`serve-static` with its defaults), the
root being the one kept in the state: a method other than GET and HEAD falls through; a file
is served; a directory is answered with a redirect; an error below 500 raised before a file
was found falls through, any other error is forwarded. -/
def serveStatic (lib : Helpers) (req : Request) (w : World) : Step × World :=
  if req.method ≠ .GET ∧ req.method ≠ .HEAD then (.next, w)
  else
    let r := sendUnderRoot lib w.root req w
    match r.1 with
    | .file path body => (.respond (.file path body), r.2)
    | .ranged path body => (.respond (.ranged path body), r.2)
    | .notModified path => (.respond (.notModified path), r.2)
    | .directory => (.respond .redirect, r.2)
    | .error status afterFile =>
      if afterFile ∨ ¬ status < 500 then (.nextErr status, r.2) else (.next, r.2)

/-- The method `res.sendFile(path)` for an absolute path, without options or callback:
a directory is `EISDIR`, answered by `next()`; any other error is passed to `next(err)`. -/
def resSendFile (lib : Helpers) (req : Request) (path : Path) (w : World) : Step × World :=
  let r := sendAbsolute lib req path w
  match r.1 with
  | .file path body => (.respond (.file path body), r.2)
  | .ranged path body => (.respond (.ranged path body), r.2)
  | .notModified path => (.respond (.notModified path), r.2)
  | .directory => (.next, r.2)
  | .error status _ => (.nextErr status, r.2)

/-- The two path patterns the module registers: the mount path `/` of `app.use` (the flag
`fast_slash` of a layer), and the route path `*` (the flag `fast_star`). -/
inductive Pattern
  | slash
  | star
  deriving DecidableEq, Repr

/-- A layer of the router's stack; `route` holds the methods of a route layer and is `none`
for middleware. -/
structure Layer where
  pattern : Pattern
  route : Option (List Method)
  handle : Request → World → Step × World

/-- The method `Layer.match(path)` under `matchLayer`, for the layer at position `i`: `/`
matches every path and sets the `path` field of the layer to `''`; `*` matches every path,
decodes it as its parameter and sets the field to the path; a failure to decode is an error of
status 400, raised before the field is assigned. -/
def matchLayer (i : Nat) (layer : Layer) (path : String) (w : World) :
    Except Nat Bool × World :=
  match layer.pattern with
  | .slash => (.ok true, setLayerPath i "" w)
  | .star =>
    if path = "" then (.ok true, setLayerPath i path w)
    else
      match decodeURIComponent path.toList with
      | some _ => (.ok true, setLayerPath i path w)
      | none => (.error 400, w)

/-- The method `Route._handles_method`: a HEAD request is handled by a GET route. -/
def handlesMethod (methods : List Method) (method : Method) : Bool :=
  methods.contains (if method = .HEAD ∧ ¬ methods.contains .HEAD then .GET else method)

/-- The method `Route._options`: the methods of the route, and HEAD next to GET. -/
def routeOptions (methods : List Method) : List Method :=
  if methods.contains .GET ∧ ¬ methods.contains .HEAD then methods ++ [.HEAD] else methods

/-- The end of the stack (`done`): an OPTIONS request that met routes and no error is answered
with the methods collected; otherwise the final handler writes the error's status, or 404. -/
def done (req : Request) (err : Option Nat) (options : List Method) : Response :=
  match err with
  | some status => .final status
  | none => if req.method = .OPTIONS ∧ options ≠ [] then .allow options else .final 404

/-- The function `next` of `Router.handle`: walk the stack from the layer at position `i`,
with the pending error and the methods collected for OPTIONS. -/
def dispatch : Nat → List Layer → Request → Option Nat → List Method → World →
    Response × World
  | _, [], req, err, options, w => (done req err options, w)
  | i, layer :: rest, req, err, options, w =>
    let m := matchLayer i layer req.path w
    match m.1 with
    | .error status => dispatch (i + 1) rest req (err.orElse fun _ => some status) options m.2
    | .ok false => dispatch (i + 1) rest req err options m.2
    | .ok true =>
      match layer.route, err with
      | none, some status => dispatch (i + 1) rest req (some status) options m.2
      | none, none =>
        let s := layer.handle req m.2
        match s.1 with
        | .respond r => (r, s.2)
        | .next => dispatch (i + 1) rest req none options s.2
        | .nextErr status => dispatch (i + 1) rest req (some status) options s.2
      | some _, some status => dispatch (i + 1) rest req (some status) options m.2
      | some methods, none =>
        if handlesMethod methods req.method then
          let s := layer.handle req m.2
          match s.1 with
          | .respond r => (r, s.2)
          | .next => dispatch (i + 1) rest req none options s.2
          | .nextErr status => dispatch (i + 1) rest req (some status) options s.2
        else if req.method = .OPTIONS then
          dispatch (i + 1) rest req none (options ++ routeOptions methods) m.2
        else dispatch (i + 1) rest req none options m.2

/-- The call `app.use(fn)`: a middleware layer mounted at `/`. -/
def use (fn : Request → World → Step × World) : Layer :=
  { pattern := .slash, route := none, handle := fn }

/-- The call `app.get('*', fn)`: a route layer for the path `*` and the method GET. -/
def get (fn : Request → World → Step × World) : Layer :=
  { pattern := .star, route := some [.GET], handle := fn }

/-! ## The module `src/frontend/index.js` -/

/-- The directory given to `express.static`: `path.join(__dirname)`. -/
def staticRoot (dirname : Path) : Path :=
  join dirname []

/-- The path the catch-all handler gives to `res.sendFile`: `path.join(__dirname, 'index.html')`. -/
def fallbackPath (dirname : Path) (_req : Request) : Path :=
  join dirname ["index.html"]

/-- The handler of the catch-all route: `(req, res) => { res.sendFile(...) }`, with the
`__dirname` of the state. -/
def catchAll (lib : Helpers) (req : Request) (w : World) : Step × World :=
  resSendFile lib req (fallbackPath w.dirname req) w

/-- The exported `app`: the static middleware, then the catch-all GET route.  (The two layers
Express itself puts first, `query` and `expressInit`, pass every request on.) -/
def app (lib : Helpers) : List Layer :=
  [use (serveStatic lib), get (catchAll lib)]

/-- The state after the module is loaded in the directory `dirname`: `express.static` has
resolved and kept its root, no layer has matched a path yet. -/
def load (dirname : Path) (fs : FS) : World :=
  { fs := fs, dirname := dirname, root := join (staticRoot dirname) [],
    layerPath := [none, none] }

/-- The exported handler on one request: the response and the state afterwards. -/
def handle (lib : Helpers) (req : Request) (w : World) : Response × World :=
  dispatch 0 (app lib) req none [] w

/-- Handling of a sequence of requests, one after the other, each in the state the one before
left: the responses and the final state. -/
def run (lib : Helpers) : World → List Request → List Response × World
  | w, [] => ([], w)
  | w, req :: reqs =>
    let r := handle lib req w
    let rs := run lib r.2 reqs
    (r.1 :: rs.1, rs.2)

/-! ## Examples -/

/-- A file system used in the examples: the module directory `/app` with the fallback
document, a style sheet, the module itself, two dotfiles, a subdirectory and a symbolic link
to a file outside the module directory. -/
def demoFS : FS := fun p =>
  if p = ["app"] then some .dir
  else if p = ["app", "index.html"] then some (.file [60, 104, 116, 109, 108, 62] 1000)
  else if p = ["app", "styles.css"] then some (.file [98, 111, 100, 121] 2000)
  else if p = ["app", "index.js"] then some (.file [47, 47] 3000)
  else if p = ["app", ".env"] then some (.file [75, 61, 49] 4000)
  else if p = ["app", ".npmrc"] then some (.file [97, 61, 98] 4500)
  else if p = ["app", "assets"] then some .dir
  else if p = ["app", "assets", "index.html"] then some (.file [60, 97, 62] 5000)
  else if p = ["app", "link.txt"] then some (.link ["etc", "passwd"])
  else if p = ["etc"] then some .dir
  else if p = ["etc", "passwd"] then some (.file [114, 111, 111, 116] 6000)
  else none

/-- A file system without the fallback document: the module directory `/app` holds the
module only. -/
def bareFS : FS := fun p =>
  if p = ["app"] then some .dir
  else if p = ["app", "index.js"] then some (.file [47, 47] 3000)
  else none

/-- Helper functions used in the examples; on the header values of the examples they answer
as the libraries do: the range `bytes=0-0` of a file that is not empty is its first byte. -/
def demoLib : Helpers :=
  { etag := fun _ _ => "W/tag",
    lastModified := fun _ => "",
    parseHttpDate := fun _ => none,
    parseTokenList := fun s => [s],
    noCache := fun _ => false,
    parseRange := fun size r =>
      if r = "bytes=0-0" then (if size = 0 then .unsatisfiable else .ok [(0, 0)])
      else .malformed }

/-- A request without header fields. -/
def plain (method : Method) (path : String) : Request :=
  ⟨method, path, noHeaders⟩

/-- The header fields of a request that carries `If-None-Match: *` and nothing else. -/
def ifNoneMatchAny : Headers :=
  ⟨none, none, some "*", none, none, none, none⟩

/-- The header fields of a request that carries `Range: bytes=0-0` and nothing else. -/
def firstByte : Headers :=
  ⟨none, none, none, none, none, some "bytes=0-0", none⟩

/-- A file system whose module directory is named `w\..` (one segment, with a backslash) and
holds the fallback document. -/
def oddFS : FS := fun p =>
  if p = ["w\\.."] then some .dir
  else if p = ["w\\..", "index.html"] then some (.file [60, 104, 116, 109, 108, 62] 1000)
  else none

/-! ## Results as functions of the files

The functions below give the result of each step as a function of the files on disk and of the
configuration alone.  The lemmas further down show that the state-passing functions above
compute these results and leave the files and the configuration as they found them. -/

/-- The result of `stream` on given files. -/
def streamed (fs : FS) (req : Request) (path : Path) (start len : Nat)
    (mk : Path → Bytes → SendResult) : SendResult :=
  mk path (if req.method = .HEAD then [] else readFS fs path start len)

/-- The result of `transfer` on given files. -/
def transferred (lib : Helpers) (fs : FS) (req : Request) (path : Path) (size mtime : Nat) :
    SendResult :=
  if isConditionalGET req.headers && isPreconditionFailure lib req.headers size mtime then
    .error 412 true
  else if isConditionalGET req.headers && isFresh lib req.headers size mtime then
    .notModified path
  else if bytesRange req.headers then
    match (if isRangeFresh lib req.headers size mtime
        then lib.parseRange size (req.headers.range.getD "") else .malformed) with
    | .unsatisfiable => .error 416 true
    | .ok [(first, last)] => streamed fs req path first (last - first + 1) .ranged
    | _ => streamed fs req path 0 size .file
  else streamed fs req path 0 size .file

/-- The result of `sendFile` on given files. -/
def sendFileResult (lib : Helpers) (fs : FS) (req : Request) (path : Path)
    (trailingSep : Bool) : SendResult :=
  match statFS fs path trailingSep with
  | .notFound => .error 404 false
  | .failed => .error 500 false
  | .directory => .directory
  | .file size mtime => transferred lib fs req path size mtime

/-- The result of `sendIndex` on given files. -/
def sendIndexResult (lib : Helpers) (fs : FS) (req : Request) (path : Path) : SendResult :=
  match statFS fs (join path ["index.html"]) false with
  | .file size mtime => transferred lib fs req (join path ["index.html"]) size mtime
  | .failed => .error 500 false
  | _ => .error 404 false

/-- The result of `sendUnderRoot` on given files. -/
def sendUnderRootResult (lib : Helpers) (fs : FS) (root : Path) (req : Request) : SendResult :=
  match resolveRelative req.path with
  | .error status => .error status false
  | .ok segs trailingSep =>
    if hasTrailingSlash req.path then sendIndexResult lib fs req (join root segs)
    else sendFileResult lib fs req (join root segs) trailingSep

/-- The result of `sendAbsolute` on given files. -/
def sendAbsoluteResult (lib : Helpers) (fs : FS) (req : Request) (path : Path) : SendResult :=
  if UP_PATH path then .error 403 false
  else if dotfileIgnored ("" :: path) then .error 404 false
  else sendFileResult lib fs req (join path []) false

/-- What `serveStatic` does with the result of its `send` stream. -/
def servedStep : SendResult → Step
  | .file path body => .respond (.file path body)
  | .ranged path body => .respond (.ranged path body)
  | .notModified path => .respond (.notModified path)
  | .directory => .respond .redirect
  | .error status afterFile => if afterFile ∨ ¬ status < 500 then .nextErr status else .next

/-- What `res.sendFile` does with the result of its `send` stream. -/
def sentStep : SendResult → Step
  | .file path body => .respond (.file path body)
  | .ranged path body => .respond (.ranged path body)
  | .notModified path => .respond (.notModified path)
  | .directory => .next
  | .error status _ => .nextErr status

/-- The step of `serveStatic` on given files and root. -/
def staticStep (lib : Helpers) (fs : FS) (root : Path) (req : Request) : Step :=
  if req.method ≠ .GET ∧ req.method ≠ .HEAD then .next
  else servedStep (sendUnderRootResult lib fs root req)

/-- The step of `catchAll` on given files and module directory. -/
def catchAllStep (lib : Helpers) (fs : FS) (dirname : Path) (req : Request) : Step :=
  sentStep (sendAbsoluteResult lib fs req (fallbackPath dirname req))

/-- The response of the two layers of `app` on given files and configuration: the static
middleware answers or passes on; the route `*` fails with 400 on a path that does not decode,
is skipped when an error is pending or the method is not GET or HEAD, and else runs the
catch-all handler; what is left goes to `done`. -/
def answer (lib : Helpers) (fs : FS) (dirname root : Path) (req : Request) : Response :=
  match staticStep lib fs root req with
  | .respond r => r
  | .nextErr status => .final status
  | .next =>
    if req.path ≠ "" ∧ decodeURIComponent req.path.toList = none then .final 400
    else if handlesMethod [.GET] req.method then
      match catchAllStep lib fs dirname req with
      | .respond r => r
      | .next => .final 404
      | .nextErr status => .final status
    else if req.method = .OPTIONS then .allow [.GET, .HEAD]
    else .final 404

/-- A list of segments that `normalizeString` leaves as it is: none is empty, `.` or `..`. -/
def Clean (segs : List String) : Prop :=
  ∀ s ∈ segs, s ≠ "" ∧ s ≠ "." ∧ s ≠ ".."

/-- A list of segments that names a path below a directory: none is empty, `.` or `..`, and
none contains a slash. -/
def Plain (segs : List String) : Prop :=
  ∀ s ∈ segs, s ≠ "" ∧ s ≠ "." ∧ s ≠ ".." ∧ '/' ∉ s.toList

/-- No symbolic link is stored at a prefix of the path: resolving the path follows none. -/
def NoLinkTo (fs : FS) (path : Path) : Prop :=
  ∀ q, q <+: path → ∀ target, fs q ≠ some (.link target)

/-- The request carries none of the conditional header fields and no `Range` of bytes. -/
def Unconditional (h : Headers) : Prop :=
  isConditionalGET h = false ∧ bytesRange h = false

/-- The file a response carries bytes of, with the bytes: for the statuses 200 and 206 of
`send`. -/
def Response.sent : Response → Option (Path × Bytes)
  | .file path body => some (path, body)
  | .ranged path body => some (path, body)
  | _ => none

/-- The file a `send` stream transfers bytes of, with the bytes. -/
def SendResult.sent : SendResult → Option (Path × Bytes)
  | .file path body => some (path, body)
  | .ranged path body => some (path, body)
  | _ => none

/-- A file name that a request path can spell as it is: not empty, not beginning with a dot,
and without `%`, `/`, backslash and NUL. -/
def PlainName (name : String) : Prop :=
  name ≠ "" ∧ startsWithDot name = false ∧
    ∀ c ∈ name.toList, c ≠ '%' ∧ c ≠ '/' ∧ c ≠ '\\' ∧ c ≠ Char.ofNat 0

/-! ## Lemmas on `path` -/

theorem pushSegment_of_clean (b : Bool) (res : List String) (seg : String)
    (h : seg ≠ "" ∧ seg ≠ "." ∧ seg ≠ "..") : pushSegment b res seg = seg :: res := by
  simp [pushSegment, h.1, h.2.1, h.2.2]

theorem foldl_pushSegment_of_clean (b : Bool) (xs : List String) (h : Clean xs) :
    ∀ acc, xs.foldl (pushSegment b) acc = xs.reverse ++ acc := by
  induction xs with
  | nil => intro acc; simp
  | cons x xs ih =>
    intro acc
    have hx : x ≠ "" ∧ x ≠ "." ∧ x ≠ ".." := h x (List.mem_cons_self _ _)
    have hxs : Clean xs := fun s hs => h s (List.mem_cons_of_mem _ hs)
    simp [List.foldl_cons, pushSegment_of_clean b acc x hx, ih hxs]

theorem clean_pushSegment_false (res : List String) (seg : String) (h : Clean res) :
    Clean (pushSegment false res seg) := by
  unfold pushSegment
  split
  · exact h
  · split
    · cases res with
      | nil => simpa using h
      | cons top res' =>
        have hres : Clean res' := fun s hs => h s (List.mem_cons_of_mem _ hs)
        by_cases ht : top = ".."
        · simpa [ht] using h
        · simpa [ht] using hres
    · rename_i h1 h2
      intro s hs
      rcases List.mem_cons.mp hs with rfl | hs
      · exact ⟨fun e => h1 (Or.inl e), fun e => h1 (Or.inr e), h2⟩
      · exact h s hs

theorem clean_foldl_false (xs : List String) :
    ∀ acc, Clean acc → Clean (xs.foldl (pushSegment false) acc) := by
  induction xs with
  | nil => intro acc h; simpa using h
  | cons x xs ih =>
    intro acc h
    simpa [List.foldl_cons] using ih _ (clean_pushSegment_false acc x h)

theorem clean_reverse (xs : List String) (h : Clean xs) : Clean xs.reverse :=
  fun s hs => h s (List.mem_reverse.mp hs)

theorem clean_join (base : Path) (more : List String) : Clean (join base more) := by
  unfold join normalizeString
  exact clean_reverse _ (clean_foldl_false _ [] (fun s hs => absurd hs (List.not_mem_nil s)))

theorem join_join (base : Path) (a b : List String) :
    join (join base a) b = join base (a ++ b) := by
  have hc : Clean (join base a) := clean_join base a
  unfold join normalizeString at *
  rw [List.foldl_append, foldl_pushSegment_of_clean false _ hc []]
  rw [← List.append_assoc, List.foldl_append]
  simp

theorem join_of_clean (base : Path) (segs : List String) (h : Clean segs) :
    join base segs = join base [] ++ segs := by
  unfold join normalizeString
  rw [List.foldl_append, foldl_pushSegment_of_clean false segs h]
  simp

theorem join_nil_idem (base : Path) (more : List String) :
    join (join base more) [] = join base more := by
  rw [join_join]; simp

theorem splitChars_no_sep (sep : Char) (cs : List Char) :
    ∀ p ∈ splitChars sep cs, sep ∉ p := by
  induction cs with
  | nil => intro p hp; simp [splitChars] at hp; simp [hp]
  | cons c cs ih =>
    intro p hp
    unfold splitChars at hp
    by_cases hc : c = sep
    · simp only [hc, if_true] at hp
      rcases List.mem_cons.mp hp with rfl | hp
      · simp
      · exact ih p hp
    · simp only [hc, if_false] at hp
      cases hsplit : splitChars sep cs with
      | nil =>
        rw [hsplit] at hp
        simp at hp
        subst hp
        simpa using fun h => hc h.symm
      | cons q qs =>
        rw [hsplit] at hp ih
        rcases List.mem_cons.mp hp with rfl | hp
        · have hq := ih q (List.mem_cons_self _ _)
          intro hmem
          rcases List.mem_cons.mp hmem with h | h
          · exact hc h.symm
          · exact hq h
        · exact ih p (List.mem_cons_of_mem _ hp)

theorem pushSegment_all (b : Bool) (Q : String → Prop) (hdd : Q "..") (res : List String)
    (seg : String) (hres : ∀ s ∈ res, Q s) (hseg : seg ≠ "" → seg ≠ "." → Q seg) :
    ∀ s ∈ pushSegment b res seg, Q s := by
  unfold pushSegment
  split
  · exact hres
  · rename_i h1
    split
    · cases res with
      | nil =>
        cases b
        · simp
        · simpa using hdd
      | cons top res' =>
        by_cases ht : top = ".."
        · cases b
          · simpa [ht] using hres
          · intro s hs
            simp only [ht, if_true] at hs
            rcases List.mem_cons.mp hs with rfl | hs
            · exact hdd
            · exact hres s (by simpa [ht] using hs)
        · intro s hs
          simp only [ht, if_false] at hs
          exact hres s (List.mem_cons_of_mem _ hs)
    · intro s hs
      rcases List.mem_cons.mp hs with rfl | hs
      · exact hseg (fun e => h1 (Or.inl e)) (fun e => h1 (Or.inr e))
      · exact hres s hs

theorem foldl_pushSegment_all (b : Bool) (Q : String → Prop) (hdd : Q "..")
    (xs : List String) (hxs : ∀ s ∈ xs, s ≠ "" → s ≠ "." → Q s) :
    ∀ acc, (∀ s ∈ acc, Q s) → ∀ s ∈ xs.foldl (pushSegment b) acc, Q s := by
  induction xs with
  | nil => intro acc h; simpa using h
  | cons x xs ih =>
    intro acc h
    rw [List.foldl_cons]
    exact ih (fun s hs => hxs s (List.mem_cons_of_mem _ hs)) _
      (pushSegment_all b Q hdd acc x h (hxs x (List.mem_cons_self _ _)))

theorem normalizeString_all (b : Bool) (Q : String → Prop) (hdd : Q "..")
    (xs : List String) (hxs : ∀ s ∈ xs, s ≠ "" → s ≠ "." → Q s) :
    ∀ s ∈ normalizeString xs b, Q s := by
  intro s hs
  unfold normalizeString at hs
  exact foldl_pushSegment_all b Q hdd xs hxs [] (fun t ht => absurd ht (List.not_mem_nil t)) s
    (List.mem_reverse.mp hs)

theorem not_dotdot_of_UP_PATH (segs : List String) (h : UP_PATH segs = false) :
    ∀ s ∈ segs, s ≠ ".." := by
  intro s hs e
  subst e
  have : UP_PATH segs = true := by
    unfold UP_PATH
    rw [List.any_eq_true]
    exact ⟨"..", hs, by decide⟩
  rw [h] at this
  exact Bool.noConfusion this

/-! ## Lemmas on the lexical half of `send` -/

theorem resolveRelative_plain (raw : String) (segs : List String) (t : Bool)
    (h : resolveRelative raw = .ok segs t) : Plain segs := by
  unfold resolveRelative at h
  split at h
  · exact Resolved.noConfusion h
  · rename_i decoded _
    split at h
    · exact Resolved.noConfusion h
    · simp only at h
      split at h
      · exact Resolved.noConfusion h
      · rename_i hup
        split at h
        · exact Resolved.noConfusion h
        · injection h with hsegs _
          subst hsegs
          have hup' : UP_PATH (normalizeString ((splitChars '/' decoded).map String.mk) true)
              = false := by simpa using hup
          have hQ := normalizeString_all true
            (fun s => s ≠ "" ∧ s ≠ "." ∧ (s = ".." ∨ '/' ∉ s.toList))
            ⟨by decide, by decide, Or.inl rfl⟩ ((splitChars '/' decoded).map String.mk)
            (by
              intro s hs h1 h2
              refine ⟨h1, h2, Or.inr ?_⟩
              rcases List.mem_map.mp hs with ⟨p, hp, rfl⟩
              exact splitChars_no_sep '/' decoded p hp)
          intro s hs
          have h3 := hQ s hs
          have h4 := not_dotdot_of_UP_PATH _ hup' s hs
          exact ⟨h3.1, h3.2.1, h4, h3.2.2.resolve_left h4⟩

theorem clean_of_plain (segs : List String) (h : Plain segs) : Clean segs :=
  fun s hs => ⟨(h s hs).1, (h s hs).2.1, (h s hs).2.2.1⟩

theorem plain_append (a b : List String) (ha : Plain a) (hb : Plain b) : Plain (a ++ b) := by
  intro s hs
  rcases List.mem_append.mp hs with h | h
  · exact ha s h
  · exact hb s h

theorem plain_index : Plain ["index.html"] := by
  intro s hs
  rw [List.mem_singleton] at hs
  subst hs
  decide

theorem resolveRelative_error (raw : String) (status : Nat)
    (h : resolveRelative raw = .error status) : status = 400 ∨ status = 403 ∨ status = 404 := by
  unfold resolveRelative at h
  split at h
  · injection h with h; exact Or.inl h.symm
  · split at h
    · injection h with h; exact Or.inl h.symm
    · simp only at h
      split at h
      · injection h with h; exact Or.inr (Or.inl h.symm)
      · split at h
        · injection h with h; exact Or.inr (Or.inr h.symm)
        · exact Resolved.noConfusion h

theorem hexVal_slash : hexVal '/' = none := by decide

theorem tokens_escape (a b : Char) (rest : List Char) :
    tokens ('%' :: a :: b :: rest) =
      match hexVal a, hexVal b, tokens rest with
      | some h, some l, some ts => some (Tok.byte (16 * h + l) :: ts)
      | _, _, _ => none := by
  rw [tokens]

theorem tokens_literal (c : Char) (rest : List Char) (hc : c ≠ '%') :
    tokens (c :: rest) = (tokens rest).map (Tok.lit c :: ·) := by
  rw [tokens]
  · intro a b r hcr; exact absurd hcr hc
  · intro hx; exact hc hx

theorem tokens_append_slash (s : List Char) :
    tokens (s ++ ['/']) = (tokens s).map (· ++ [Tok.lit '/']) := by
  induction s using tokens.induct with
  | case1 => decide
  | case2 a b rest h l ts hts hl hh ih =>
    rw [List.cons_append, List.cons_append, List.cons_append, tokens_escape, tokens_escape,
      ih, hh, hl, hts]
    rfl
  | case3 a b rest hnot ih =>
    rw [List.cons_append, List.cons_append, List.cons_append, tokens_escape, tokens_escape, ih]
    cases ha : hexVal a with
    | none => rfl
    | some h =>
      cases hb : hexVal b with
      | none => rfl
      | some l =>
        cases hr : tokens rest with
        | none => rfl
        | some ts => exact absurd hr (fun hr => hnot h l ts ha hb hr)
  | case4 tail hnot =>
    cases tail with
    | nil => decide
    | cons a tail =>
      cases tail with
      | nil =>
        have h1 : tokens ['%', a] = none := rfl
        rw [h1]
        show tokens ('%' :: a :: '/' :: []) = none
        rw [tokens_escape, hexVal_slash]
        cases hexVal a <;> rfl
      | cons b rest => exact absurd rfl (hnot a b rest)
  | case5 c rest hnot hc ih =>
    rw [List.cons_append, tokens_literal c _ hc, tokens_literal c _ hc, ih]
    cases tokens rest <;> rfl

theorem utf8_literal (c : Char) (rest : List Tok) :
    utf8 (.lit c :: rest) = (utf8 rest).map (c :: ·) := rfl

theorem utf8_byte (b : Nat) (rest : List Tok) :
    utf8 (.byte b :: rest) =
    if b < 128 then (utf8 rest).map (Char.ofNat b :: ·)
    else if 192 ≤ b ∧ b < 224 then
      match rest with
      | t1 :: rest1 =>
        match contByte t1, utf8 rest1 with
        | some c1, some cs => (scalar 128 ((b - 192) * 64 + c1)).map (· :: cs)
        | _, _ => none
      | _ => none
    else if 224 ≤ b ∧ b < 240 then
      match rest with
      | t1 :: t2 :: rest2 =>
        match contByte t1, contByte t2, utf8 rest2 with
        | some c1, some c2, some cs =>
          (scalar 2048 ((b - 224) * 4096 + c1 * 64 + c2)).map (· :: cs)
        | _, _, _ => none
      | _ => none
    else if 240 ≤ b ∧ b < 248 then
      match rest with
      | t1 :: t2 :: t3 :: rest3 =>
        match contByte t1, contByte t2, contByte t3, utf8 rest3 with
        | some c1, some c2, some c3, some cs =>
          (scalar 65536 ((b - 240) * 262144 + c1 * 4096 + c2 * 64 + c3)).map (· :: cs)
        | _, _, _, _ => none
      | _ => none
    else none := by
  cases rest with
  | nil => rfl
  | cons t1 rest =>
    cases rest with
    | nil => rfl
    | cons t2 rest =>
      cases rest with
      | nil => rfl
      | cons t3 rest => rfl

theorem contByte_literal (c : Char) : contByte (.lit c) = none := rfl

theorem utf8_append_literal_aux (c : Char) :
    ∀ (n : Nat) (ts : List Tok), ts.length = n →
      utf8 (ts ++ [Tok.lit c]) = (utf8 ts).map (· ++ [c]) := by
  intro n
  induction n using Nat.strong_induction_on with
  | _ n ih =>
    intro ts hn
    cases ts with
    | nil => rfl
    | cons t rest =>
      have hrest : ∀ r : List Tok, r.length < n →
          utf8 (r ++ [Tok.lit c]) = (utf8 r).map (· ++ [c]) :=
        fun r hr => ih r.length hr r rfl
      simp only [List.length_cons] at hn
      cases t with
      | lit c' =>
        rw [List.cons_append, utf8_literal, utf8_literal, hrest rest (by omega)]
        cases utf8 rest <;> rfl
      | byte b =>
        rw [List.cons_append, utf8_byte, utf8_byte]
        by_cases h1 : b < 128
        · rw [if_pos h1, if_pos h1, hrest rest (by omega)]
          cases utf8 rest <;> rfl
        · rw [if_neg h1, if_neg h1]
          by_cases h2 : 192 ≤ b ∧ b < 224
          · rw [if_pos h2, if_pos h2]
            cases rest with
            | nil => rfl
            | cons t1 rest1 =>
              simp only [List.length_cons] at hn
              simp only [List.cons_append, hrest rest1 (by omega)]
              cases contByte t1 <;> cases utf8 rest1 <;> try rfl
              simp only [Option.map_some']
              cases scalar 128 _ <;> rfl
          · rw [if_neg h2, if_neg h2]
            by_cases h3 : 224 ≤ b ∧ b < 240
            · rw [if_pos h3, if_pos h3]
              cases rest with
              | nil => rfl
              | cons t1 rest1 =>
                cases rest1 with
                | nil =>
                  simp only [List.cons_append, List.nil_append, contByte_literal]
                  cases contByte t1 <;> rfl
                | cons t2 rest2 =>
                  simp only [List.length_cons] at hn
                  simp only [List.cons_append, hrest rest2 (by omega)]
                  cases contByte t1 <;> cases contByte t2 <;> cases utf8 rest2 <;> try rfl
                  simp only [Option.map_some']
                  cases scalar 2048 _ <;> rfl
            · rw [if_neg h3, if_neg h3]
              by_cases h4 : 240 ≤ b ∧ b < 248
              · rw [if_pos h4, if_pos h4]
                cases rest with
                | nil => rfl
                | cons t1 rest1 =>
                  cases rest1 with
                  | nil => rfl
                  | cons t2 rest2 =>
                    cases rest2 with
                    | nil =>
                      simp only [List.cons_append, List.nil_append, contByte_literal]
                      cases contByte t1 <;> cases contByte t2 <;> rfl
                    | cons t3 rest3 =>
                      simp only [List.length_cons] at hn
                      simp only [List.cons_append, hrest rest3 (by omega)]
                      cases contByte t1 <;> cases contByte t2 <;> cases contByte t3 <;>
                        cases utf8 rest3 <;> try rfl
                      simp only [Option.map_some']
                      cases scalar 65536 _ <;> rfl
              · rw [if_neg h4, if_neg h4]
                rfl

theorem decodeURIComponent_append_slash (s : List Char) :
    decodeURIComponent (s ++ ['/']) = (decodeURIComponent s).map (· ++ ['/']) := by
  unfold decodeURIComponent
  rw [tokens_append_slash]
  cases tokens s with
  | none => rfl
  | some ts => exact utf8_append_literal_aux '/' ts.length ts rfl

theorem trailingSep_of_hasTrailingSlash (raw : String) (segs : List String) (t : Bool)
    (hslash : hasTrailingSlash raw = true) (hres : resolveRelative raw = .ok segs t) :
    t = true := by
  have hlast : raw.toList.getLast? = some '/' := by simpa [hasTrailingSlash] using hslash
  obtain ⟨pre, hpre⟩ : ∃ pre, raw.toList = pre ++ ['/'] := by
    rcases List.getLast?_eq_some_iff.mp hlast with ⟨pre, h⟩
    exact ⟨pre, h⟩
  unfold resolveRelative at hres
  rw [hpre, decodeURIComponent_append_slash] at hres
  cases hd : decodeURIComponent pre with
  | none => rw [hd] at hres; simp at hres
  | some d =>
    rw [hd] at hres
    simp only [Option.map_some'] at hres
    split at hres
    · exact Resolved.noConfusion hres
    · split at hres
      · exact Resolved.noConfusion hres
      · split at hres
        · exact Resolved.noConfusion hres
        · injection hres with _ ht
          rw [← ht]
          simp

theorem hasTrailingSlash_of_resolved (raw : String) (segs : List String)
    (hres : resolveRelative raw = .ok segs false) : hasTrailingSlash raw = false := by
  cases h : hasTrailingSlash raw with
  | false => rfl
  | true => exact Bool.noConfusion (trailingSep_of_hasTrailingSlash raw segs false h hres)

/-! ## The state-passing functions compute the results and keep the files -/

theorem stream_eq (req : Request) (path : Path) (start len : Nat)
    (mk : Path → Bytes → SendResult) (w : World) :
    stream req path start len mk w = (streamed w.fs req path start len mk, w) := by
  unfold stream streamed fsRead
  split <;> rfl

theorem transfer_eq (lib : Helpers) (req : Request) (path : Path) (size mtime : Nat)
    (w : World) :
    transfer lib req path size mtime w = (transferred lib w.fs req path size mtime, w) := by
  unfold transfer transferred
  split
  · rfl
  · split
    · rfl
    · split
      · split <;> simp only [stream_eq]
      · simp only [stream_eq]

theorem sendFile_eq (lib : Helpers) (req : Request) (path : Path) (trailingSep : Bool)
    (w : World) :
    sendFile lib req path trailingSep w = (sendFileResult lib w.fs req path trailingSep, w) := by
  unfold sendFile sendFileResult fsStat
  simp only
  split <;> simp only [transfer_eq]

theorem sendIndex_eq (lib : Helpers) (req : Request) (path : Path) (w : World) :
    sendIndex lib req path w = (sendIndexResult lib w.fs req path, w) := by
  unfold sendIndex sendIndexResult fsStat
  simp only
  split <;> simp only [transfer_eq]

theorem sendUnderRoot_eq (lib : Helpers) (root : Path) (req : Request) (w : World) :
    sendUnderRoot lib root req w = (sendUnderRootResult lib w.fs root req, w) := by
  unfold sendUnderRoot sendUnderRootResult
  split
  · rfl
  · split <;> simp only [sendIndex_eq, sendFile_eq]

theorem sendAbsolute_eq (lib : Helpers) (req : Request) (path : Path) (w : World) :
    sendAbsolute lib req path w = (sendAbsoluteResult lib w.fs req path, w) := by
  unfold sendAbsolute sendAbsoluteResult
  split
  · rfl
  · split
    · rfl
    · simp only [sendFile_eq]

theorem serveStatic_eq (lib : Helpers) (req : Request) (w : World) :
    serveStatic lib req w = (staticStep lib w.fs w.root req, w) := by
  unfold serveStatic staticStep
  split
  · rfl
  · simp only [sendUnderRoot_eq]
    cases sendUnderRootResult lib w.fs w.root req with
    | error status afterFile => simp only [servedStep]; split <;> rfl
    | _ => rfl

theorem catchAll_eq (lib : Helpers) (req : Request) (w : World) :
    catchAll lib req w = (catchAllStep lib w.fs w.dirname req, w) := by
  unfold catchAll catchAllStep resSendFile
  simp only [sendAbsolute_eq]
  cases sendAbsoluteResult lib w.fs req (fallbackPath w.dirname req) <;> rfl

theorem dispatch_route (lib : Helpers) (req : Request) (w : World) :
    (dispatch 1 [get (catchAll lib)] req none [] w).1 =
      (if req.path ≠ "" ∧ decodeURIComponent req.path.toList = none then .final 400
        else if handlesMethod [.GET] req.method then
          match catchAllStep lib w.fs w.dirname req with
          | .respond r => r
          | .next => .final 404
          | .nextErr status => .final status
        else if req.method = .OPTIONS then .allow [.GET, .HEAD]
        else .final 404) ∧
    (dispatch 1 [get (catchAll lib)] req none [] w).2.fs = w.fs ∧
    (dispatch 1 [get (catchAll lib)] req none [] w).2.dirname = w.dirname ∧
    (dispatch 1 [get (catchAll lib)] req none [] w).2.root = w.root := by
  by_cases hp : req.path = ""
  · by_cases hm : handlesMethod [.GET] req.method = true
    · cases hc : catchAllStep lib w.fs w.dirname req <;>
        simp [dispatch, get, matchLayer, hp, hm, catchAll_eq, setLayerPath, hc, done]
    · have hopt : handlesMethod [.GET] Method.OPTIONS = false := by decide
      by_cases ho : req.method = .OPTIONS <;>
        simp [dispatch, get, matchLayer, hp, hm, ho, hopt, setLayerPath, done, routeOptions]
  · cases hd : decodeURIComponent req.path.toList with
    | none =>
      have hd' : decodeURIComponent req.path.data = none := hd
      simp [dispatch, get, matchLayer, hp, hd', done]
    | some decoded =>
      have hd' : decodeURIComponent req.path.data = some decoded := hd
      by_cases hm : handlesMethod [.GET] req.method = true
      · cases hc : catchAllStep lib w.fs w.dirname req <;>
          simp [dispatch, get, matchLayer, hp, hd', hm, catchAll_eq, setLayerPath, hc, done]
      · have hopt : handlesMethod [.GET] Method.OPTIONS = false := by decide
        by_cases ho : req.method = .OPTIONS <;>
          simp [dispatch, get, matchLayer, hp, hd', hm, ho, hopt, setLayerPath, done,
            routeOptions]

theorem dispatch_route_error (lib : Helpers) (req : Request) (status : Nat) (w : World) :
    (dispatch 1 [get (catchAll lib)] req (some status) [] w).1 = .final status ∧
    (dispatch 1 [get (catchAll lib)] req (some status) [] w).2.fs = w.fs ∧
    (dispatch 1 [get (catchAll lib)] req (some status) [] w).2.dirname = w.dirname ∧
    (dispatch 1 [get (catchAll lib)] req (some status) [] w).2.root = w.root := by
  by_cases hp : req.path = ""
  · simp [dispatch, get, matchLayer, hp, setLayerPath, done]
  · cases hd : decodeURIComponent req.path.toList with
    | none =>
      have hd' : decodeURIComponent req.path.data = none := hd
      simp [dispatch, get, matchLayer, hp, hd', done]
    | some decoded =>
      have hd' : decodeURIComponent req.path.data = some decoded := hd
      simp [dispatch, get, matchLayer, hp, hd', setLayerPath, done]

theorem handle_eq (lib : Helpers) (req : Request) (w : World) :
    (handle lib req w).1 = answer lib w.fs w.dirname w.root req ∧
    (handle lib req w).2.fs = w.fs ∧
    (handle lib req w).2.dirname = w.dirname ∧
    (handle lib req w).2.root = w.root := by
  have hs := serveStatic_eq lib req (setLayerPath 0 "" w)
  have hfs : (setLayerPath 0 "" w).fs = w.fs := rfl
  have hroot : (setLayerPath 0 "" w).root = w.root := rfl
  rw [hfs, hroot] at hs
  unfold handle app answer
  cases hstep : staticStep lib w.fs w.root req with
  | respond r =>
    rw [hstep] at hs
    simp only [dispatch, use, matchLayer, hs]
    exact ⟨trivial, rfl, rfl, rfl⟩
  | nextErr status =>
    rw [hstep] at hs
    have h := dispatch_route_error lib req status (setLayerPath 0 "" w)
    simp only [dispatch, use, matchLayer, hs]
    exact h
  | next =>
    rw [hstep] at hs
    have h := dispatch_route lib req (setLayerPath 0 "" w)
    simp only [dispatch, use, matchLayer, hs]
    exact h

theorem run_eq (lib : Helpers) (reqs : List Request) :
    ∀ w : World,
      (run lib w reqs).1 = reqs.map (answer lib w.fs w.dirname w.root) ∧
      (run lib w reqs).2.fs = w.fs ∧
      (run lib w reqs).2.dirname = w.dirname ∧
      (run lib w reqs).2.root = w.root := by
  induction reqs with
  | nil => intro w; exact ⟨rfl, rfl, rfl, rfl⟩
  | cons req reqs ih =>
    intro w
    obtain ⟨h1, h2, h3, h4⟩ := handle_eq lib req w
    obtain ⟨i1, i2, i3, i4⟩ := ih (handle lib req w).2
    simp only [run, List.map_cons]
    rw [i1, i2, i3, i4, h1, h2, h3, h4]
    exact ⟨rfl, rfl, rfl, rfl⟩

theorem handle_world_of_respond (lib : Helpers) (req : Request) (w : World) (r : Response)
    (h : staticStep lib w.fs w.root req = .respond r) :
    (handle lib req w).2 = setLayerPath 0 "" w := by
  have hs := serveStatic_eq lib req (setLayerPath 0 "" w)
  have hfs : (setLayerPath 0 "" w).fs = w.fs := rfl
  have hroot : (setLayerPath 0 "" w).root = w.root := rfl
  rw [hfs, hroot, h] at hs
  unfold handle app
  simp only [dispatch, use, matchLayer, hs]

/-! ## Lemmas on the module's paths and on the file system -/

theorem load_root (dirname : Path) (fs : FS) : (load dirname fs).root = staticRoot dirname := by
  show join (staticRoot dirname) [] = staticRoot dirname
  unfold staticRoot
  exact join_nil_idem dirname []

theorem staticRoot_of_clean (dirname : Path) (h : Clean dirname) :
    staticRoot dirname = dirname := by
  unfold staticRoot join normalizeString
  rw [List.append_nil, foldl_pushSegment_of_clean false dirname h]
  simp

theorem fallbackPath_eq (dirname : Path) (req : Request) :
    fallbackPath dirname req = staticRoot dirname ++ ["index.html"] := by
  unfold fallbackPath staticRoot
  exact join_of_clean dirname ["index.html"] (clean_of_plain _ plain_index)

theorem fallback_join (dirname : Path) :
    join (staticRoot dirname ++ ["index.html"]) [] = staticRoot dirname ++ ["index.html"] := by
  have h := fallbackPath_eq dirname ⟨.GET, "", noHeaders⟩
  rw [← h]
  unfold fallbackPath
  exact join_nil_idem dirname ["index.html"]

theorem served_path_eq (dirname : Path) (segs : List String) (h : Plain segs) :
    join (staticRoot dirname) segs = staticRoot dirname ++ segs := by
  unfold staticRoot
  rw [join_join, List.nil_append, join_of_clean dirname segs (clean_of_plain _ h)]

theorem served_index_eq (dirname : Path) (segs : List String) (h : Plain segs) :
    join (join (staticRoot dirname) segs) ["index.html"]
      = staticRoot dirname ++ (segs ++ ["index.html"]) := by
  unfold staticRoot
  rw [join_join, join_join, List.nil_append,
    join_of_clean dirname _ (clean_of_plain _ (plain_append _ _ h plain_index))]

theorem statFS_of_file (fs : FS) (path real : Path) (content : Bytes) (mtime : Nat)
    (h : realpath fs path = .found real (.file content mtime)) :
    statFS fs path false = .file content.length mtime := by
  unfold statFS
  rw [h]
  rfl

theorem readFS_whole (fs : FS) (path real : Path) (content : Bytes) (mtime : Nat)
    (h : realpath fs path = .found real (.file content mtime)) :
    readFS fs path 0 content.length = content := by
  unfold readFS
  rw [h]
  simp

theorem file_of_statFS (fs : FS) (path : Path) (t : Bool) (size mtime : Nat)
    (h : statFS fs path t = .file size mtime) :
    ∃ real content, realpath fs path = .found real (.file content mtime) ∧
      size = content.length ∧ t = false := by
  unfold statFS at h
  cases hr : realpath fs path with
  | missing => rw [hr] at h; exact Stats.noConfusion h
  | loop => rw [hr] at h; exact Stats.noConfusion h
  | found real entry =>
    rw [hr] at h
    cases entry with
    | dir => exact Stats.noConfusion h
    | link target => exact Stats.noConfusion h
    | file content m =>
      cases t with
      | true => exact Stats.noConfusion h
      | false =>
        simp at h
        exact ⟨real, content, by rw [h.2], h.1.symm, rfl⟩

theorem transferred_unconditional (lib : Helpers) (fs : FS) (req : Request) (path : Path)
    (size mtime : Nat) (h : Unconditional req.headers) :
    transferred lib fs req path size mtime = streamed fs req path 0 size .file := by
  unfold transferred
  simp [h.1, h.2]

theorem sendFileResult_of_file (lib : Helpers) (fs : FS) (req : Request) (path real : Path)
    (content : Bytes) (mtime : Nat) (hu : Unconditional req.headers)
    (h : realpath fs path = .found real (.file content mtime)) :
    sendFileResult lib fs req path false
      = .file path (if req.method = .HEAD then [] else content) := by
  unfold sendFileResult
  rw [statFS_of_file fs path real content mtime h]
  simp only
  rw [transferred_unconditional lib fs req path _ _ hu]
  unfold streamed
  rw [readFS_whole fs path real content mtime h]

/-! ## Lemmas on the two layers -/

theorem handle_load (lib : Helpers) (dirname : Path) (fs : FS) (req : Request) :
    (handle lib req (load dirname fs)).1 = answer lib fs dirname (staticRoot dirname) req := by
  have h := (handle_eq lib req (load dirname fs)).1
  rw [load_root] at h
  exact h

theorem staticStep_of_error (lib : Helpers) (fs : FS) (root : Path) (req : Request)
    (status : Nat) (hm : req.method = .GET ∨ req.method = .HEAD)
    (hres : resolveRelative req.path = .error status) :
    staticStep lib fs root req = .next := by
  have hm' : ¬ (req.method ≠ .GET ∧ req.method ≠ .HEAD) := by
    rcases hm with h | h <;> simp [h]
  have hs := resolveRelative_error req.path status hres
  have hlt : status < 500 := by omega
  unfold staticStep sendUnderRootResult
  rw [if_neg hm', hres]
  simp [servedStep, hlt]

theorem staticStep_file_path (lib : Helpers) (fs : FS) (dirname : Path) (req : Request)
    (segs : List String) (t : Bool) (hm : req.method = .GET ∨ req.method = .HEAD)
    (hres : resolveRelative req.path = .ok segs t)
    (hslash : hasTrailingSlash req.path = false) :
    staticStep lib fs (staticRoot dirname) req
      = servedStep (sendFileResult lib fs req (staticRoot dirname ++ segs) t) := by
  have hm' : ¬ (req.method ≠ .GET ∧ req.method ≠ .HEAD) := by
    rcases hm with h | h <;> simp [h]
  unfold staticStep sendUnderRootResult
  rw [if_neg hm', hres]
  simp only [hslash, Bool.false_eq_true, if_false]
  rw [served_path_eq dirname segs (resolveRelative_plain req.path segs t hres)]

theorem staticStep_index_path (lib : Helpers) (fs : FS) (dirname : Path) (req : Request)
    (segs : List String) (t : Bool) (hm : req.method = .GET ∨ req.method = .HEAD)
    (hres : resolveRelative req.path = .ok segs t)
    (hslash : hasTrailingSlash req.path = true) :
    staticStep lib fs (staticRoot dirname) req
      = servedStep
          (match statFS fs (staticRoot dirname ++ (segs ++ ["index.html"])) false with
            | .file size mtime =>
              transferred lib fs req (staticRoot dirname ++ (segs ++ ["index.html"])) size mtime
            | .failed => .error 500 false
            | _ => .error 404 false) := by
  have hm' : ¬ (req.method ≠ .GET ∧ req.method ≠ .HEAD) := by
    rcases hm with h | h <;> simp [h]
  unfold staticStep sendUnderRootResult
  rw [if_neg hm', hres]
  simp only [hslash, if_true]
  unfold sendIndexResult
  rw [served_index_eq dirname segs (resolveRelative_plain req.path segs t hres)]

theorem answer_of_respond (lib : Helpers) (fs : FS) (dirname root : Path) (req : Request)
    (r : Response) (h : staticStep lib fs root req = .respond r) :
    answer lib fs dirname root req = r := by
  unfold answer
  rw [h]

theorem answer_of_next (lib : Helpers) (fs : FS) (dirname root : Path) (req : Request)
    (h : staticStep lib fs root req = .next)
    (hm : req.method = .GET ∨ req.method = .HEAD)
    (hdec : decodeURIComponent req.path.toList ≠ none) :
    answer lib fs dirname root req =
      match catchAllStep lib fs dirname req with
      | .respond r => r
      | .next => .final 404
      | .nextErr status => .final status := by
  have hh : handlesMethod [.GET] req.method = true := by
    rcases hm with hm | hm <;> rw [hm] <;> decide
  unfold answer
  rw [h]
  simp only [hh, if_true]
  rw [if_neg (fun hc => hdec hc.2)]

theorem catchAllStep_of_fallback (lib : Helpers) (fs : FS) (dirname : Path) (req : Request)
    (real : Path) (content : Bytes) (mtime : Nat)
    (hu : Unconditional req.headers)
    (hup : UP_PATH (staticRoot dirname) = false)
    (hfile : realpath fs (staticRoot dirname ++ ["index.html"])
      = .found real (.file content mtime)) :
    catchAllStep lib fs dirname req = .respond (.file (staticRoot dirname ++ ["index.html"])
      (if req.method = .HEAD then [] else content)) := by
  have hup' : UP_PATH (staticRoot dirname ++ ["index.html"]) = false := by
    unfold UP_PATH at hup ⊢
    rw [List.any_append, hup]
    decide
  have hdot : dotfileIgnored ("" :: (staticRoot dirname ++ ["index.html"])) = false := by
    unfold dotfileIgnored
    have hl : ("" :: (staticRoot dirname ++ ["index.html"])).getLast? = some "index.html" := by
      rw [← List.cons_append, List.getLast?_append]
      simp
    rw [hl]
    have : startsWithDot "index.html" = false := by decide
    simp [this]
  unfold catchAllStep sendAbsoluteResult
  rw [fallbackPath_eq, hup', hdot, fallback_join]
  simp only [Bool.false_eq_true, if_false]
  rw [sendFileResult_of_file lib fs req _ real content mtime hu hfile]
  rfl

theorem fallback_of_next (lib : Helpers) (fs : FS) (dirname : Path) (path : String)
    (h : Headers) (real : Path) (content : Bytes) (mtime : Nat)
    (hnext : staticStep lib fs (staticRoot dirname) ⟨.GET, path, h⟩ = .next)
    (hdec : decodeURIComponent path.toList ≠ none)
    (hu : Unconditional h)
    (hup : UP_PATH (staticRoot dirname) = false)
    (hfb : realpath fs (staticRoot dirname ++ ["index.html"])
      = .found real (.file content mtime)) :
    answer lib fs dirname (staticRoot dirname) ⟨.GET, path, h⟩
      = .file (staticRoot dirname ++ ["index.html"]) content := by
  rw [answer_of_next lib fs dirname _ ⟨.GET, path, h⟩ hnext (Or.inl rfl) hdec,
    catchAllStep_of_fallback lib fs dirname ⟨.GET, path, h⟩ real content mtime hu hup hfb]
  simp

/-! ## The claims -/

/-- C1, as stated, fails on a dotfile and on conditional and range requests: `/app/.env` is an
existing file under the static root `/app`, yet `GET /.env` is answered with the fallback
document, because `send` ignores a path whose last part begins with a dot; `GET /styles.css`
with `If-None-Match: *` is answered with 304 and no body, and with `Range: bytes=0-0` with 206
and the first byte only. -/
theorem existing_dotfile_gets_fallback :
    realpath demoFS ["app", ".env"] = .found ["app", ".env"] (.file [75, 61, 49] 4000) ∧
    (handle demoLib (plain .GET "/.env") (load ["app"] demoFS)).1
      = .file ["app", "index.html"] [60, 104, 116, 109, 108, 62] ∧
    (handle demoLib ⟨.GET, "/styles.css", ifNoneMatchAny⟩ (load ["app"] demoFS)).1
      = .notModified ["app", "styles.css"] ∧
    (handle demoLib ⟨.GET, "/styles.css", firstByte⟩ (load ["app"] demoFS)).1
      = .ranged ["app", "styles.css"] [98] := by
  decide

/-- C1, amended: for every GET request that carries no conditional header field and no `Range`
of bytes, and whose path resolves, by percent-decoding and normalisation, to segments that pass
the traversal and dotfile checks of `send` (the last one does not begin with a dot), does not
end in a slash once decoded, and names under the static root a path that `fs.stat` resolves to
a regular file, the static middleware, registered first, writes the response; the response has
status 200, its body is that file's bytes, and the catch-all route is not reached (its layer
has matched no path). -/
theorem existing_file_served (lib : Helpers) (dirname : Path) (fs : FS) (path : String)
    (h : Headers) (segs : List String) (real : Path) (content : Bytes) (mtime : Nat)
    (hu : Unconditional h)
    (hres : resolveRelative path = .ok segs false)
    (hfile : realpath fs (staticRoot dirname ++ segs) = .found real (.file content mtime)) :
    (serveStatic lib ⟨.GET, path, h⟩ (load dirname fs)).1
        = .respond (.file (staticRoot dirname ++ segs) content) ∧
    (handle lib ⟨.GET, path, h⟩ (load dirname fs)).1
        = .file (staticRoot dirname ++ segs) content ∧
    (handle lib ⟨.GET, path, h⟩ (load dirname fs)).1.status = 200 ∧
    (handle lib ⟨.GET, path, h⟩ (load dirname fs)).2.layerPath = [some "", none] := by
  have hstep : staticStep lib fs (staticRoot dirname) ⟨.GET, path, h⟩
      = .respond (.file (staticRoot dirname ++ segs) content) := by
    rw [staticStep_file_path lib fs dirname ⟨.GET, path, h⟩ segs false (Or.inl rfl) hres
      (hasTrailingSlash_of_resolved path segs hres),
      sendFileResult_of_file lib fs ⟨.GET, path, h⟩ _ real content mtime hu hfile]
    rfl
  have hh : (handle lib ⟨.GET, path, h⟩ (load dirname fs)).1
      = .file (staticRoot dirname ++ segs) content := by
    rw [handle_load]
    exact answer_of_respond lib fs dirname _ _ _ hstep
  have hw : (handle lib ⟨.GET, path, h⟩ (load dirname fs)).2
      = setLayerPath 0 "" (load dirname fs) := by
    apply handle_world_of_respond lib _ _ (.file (staticRoot dirname ++ segs) content)
    rw [load_root]
    exact hstep
  refine ⟨?_, hh, by rw [hh]; rfl, by rw [hw]; rfl⟩
  rw [serveStatic_eq, load_root]
  exact hstep

/-- Witness of `existing_file_served`: `GET /styles.css` in the example file system. -/
theorem existing_file_served_witness :
    (handle demoLib ⟨.GET, "/styles.css", noHeaders⟩ (load ["app"] demoFS)).1
      = .file ["app", "styles.css"] [98, 111, 100, 121] :=
  (existing_file_served demoLib ["app"] demoFS "/styles.css" noHeaders ["styles.css"]
    ["app", "styles.css"] [98, 111, 100, 121] 2000
    ⟨rfl, rfl⟩ (by decide) (by decide)).2.1

/-- C2, as stated, fails on a directory, on a path that does not decode, and for a module
directory with a `..` piece between backslashes: `/app/assets` is a directory, not a file, and
`GET /assets` is answered with the redirect 301 of the static middleware; `/%` names no file
and `GET /%` is answered with 400, the error raised when the route `*` decodes the path; in the
module directory `/w\..` the path `/x` names no file and `GET /x` is answered with 403, because
`res.sendFile` rejects the path of the fallback document.  The fallback document exists in all
three cases. -/
theorem unmatched_path_not_always_fallback :
    realpath demoFS ["app", "index.html"]
      = .found ["app", "index.html"] (.file [60, 104, 116, 109, 108, 62] 1000) ∧
    demoFS ["app", "assets"] = some .dir ∧
    (handle demoLib (plain .GET "/assets") (load ["app"] demoFS)).1 = .redirect ∧
    (handle demoLib (plain .GET "/assets") (load ["app"] demoFS)).1.status = 301 ∧
    (handle demoLib (plain .GET "/%") (load ["app"] demoFS)).1 = .final 400 ∧
    realpath oddFS ["w\\..", "index.html"]
      = .found ["w\\..", "index.html"] (.file [60, 104, 116, 109, 108, 62] 1000) ∧
    (handle demoLib (plain .GET "/x") (load ["w\\.."] oddFS)).1 = .final 403 := by
  decide

/-- C2, amended: when `fs.stat` resolves the fallback document to a regular file and no
segment of the static root, cut at its backslashes, has a piece equal to `..`, every GET
request that carries no conditional header field and no `Range` of bytes, whose path
percent-decodes, and for which the static middleware finds nothing to serve, to redirect or to
fail on (for a path ending in `/`: the `index.html` of the directory it names is missing or a
directory; for any other path: `fs.stat` of the resolved path reports that nothing is there)
is answered with status 200 and the bytes of the fallback document. -/
theorem unmatched_path_gets_fallback (lib : Helpers) (dirname : Path) (fs : FS)
    (path : String) (h : Headers) (real : Path) (content : Bytes) (mtime : Nat)
    (hu : Unconditional h)
    (hdec : decodeURIComponent path.toList ≠ none)
    (hup : UP_PATH (staticRoot dirname) = false)
    (hfb : realpath fs (staticRoot dirname ++ ["index.html"])
      = .found real (.file content mtime))
    (hidx : ∀ segs t, resolveRelative path = .ok segs t → hasTrailingSlash path = true →
      statFS fs (staticRoot dirname ++ (segs ++ ["index.html"])) false = .notFound ∨
      statFS fs (staticRoot dirname ++ (segs ++ ["index.html"])) false = .directory)
    (hmiss : ∀ segs t, resolveRelative path = .ok segs t → hasTrailingSlash path = false →
      statFS fs (staticRoot dirname ++ segs) t = .notFound) :
    (handle lib ⟨.GET, path, h⟩ (load dirname fs)).1
      = .file (staticRoot dirname ++ ["index.html"]) content ∧
    (handle lib ⟨.GET, path, h⟩ (load dirname fs)).1.status = 200 := by
  have hnext : staticStep lib fs (staticRoot dirname) ⟨.GET, path, h⟩ = .next := by
    cases hres : resolveRelative path with
    | error status =>
      exact staticStep_of_error lib fs _ ⟨.GET, path, h⟩ status (Or.inl rfl) hres
    | ok segs t =>
      by_cases hslash : hasTrailingSlash path = true
      · rw [staticStep_index_path lib fs dirname ⟨.GET, path, h⟩ segs t (Or.inl rfl) hres
          hslash]
        rcases hidx segs t hres hslash with hi | hi <;> rw [hi] <;> rfl
      · have hslash' : hasTrailingSlash path = false := by simpa using hslash
        rw [staticStep_file_path lib fs dirname ⟨.GET, path, h⟩ segs t (Or.inl rfl) hres
          hslash']
        unfold sendFileResult
        rw [hmiss segs t hres hslash']
        rfl
  have hh : (handle lib ⟨.GET, path, h⟩ (load dirname fs)).1
      = .file (staticRoot dirname ++ ["index.html"]) content := by
    rw [handle_load]
    exact fallback_of_next lib fs dirname path h real content mtime hnext hdec hu hup hfb
  exact ⟨hh, by rw [hh]; rfl⟩

/-- Witness of `unmatched_path_gets_fallback`: `GET /a/b/c/d` in the example file system. -/
theorem unmatched_path_gets_fallback_witness :
    (handle demoLib ⟨.GET, "/a/b/c/d", noHeaders⟩ (load ["app"] demoFS)).1
      = .file ["app", "index.html"] [60, 104, 116, 109, 108, 62] :=
  (unmatched_path_gets_fallback demoLib ["app"] demoFS "/a/b/c/d" noHeaders
    ["app", "index.html"] [60, 104, 116, 109, 108, 62] 1000
    ⟨rfl, rfl⟩ (by decide) (by decide) (by decide)
    (by intro segs t _ hs; exact absurd hs (by decide))
    (by
      intro segs t hr _
      have h0 : resolveRelative "/a/b/c/d" = .ok ["a", "b", "c", "d"] false := by decide
      rw [h0] at hr
      injection hr with h1 h2
      subst h1 h2
      decide)).1

/-- C3, as stated, fails for a method other than GET and HEAD, and for GET on a directory, on
a path that does not decode, on a conditional request, and when the fallback document is
missing: `POST /styles.css`, whose path names an existing file, is answered with 404 by the
final handler; `GET /assets`, a directory, with the redirect 301; `GET /%` with 400;
`GET /styles.css` with `If-None-Match: *` with 304; `GET /x` in a module directory without
`index.html` with 404.  None is the file at the requested path or the fallback document. -/
theorem post_gets_not_found :
    realpath demoFS ["app", "styles.css"]
      = .found ["app", "styles.css"] (.file [98, 111, 100, 121] 2000) ∧
    realpath demoFS ["app", "index.html"]
      = .found ["app", "index.html"] (.file [60, 104, 116, 109, 108, 62] 1000) ∧
    (handle demoLib (plain .POST "/styles.css") (load ["app"] demoFS)).1 = .final 404 ∧
    (handle demoLib (plain .GET "/assets") (load ["app"] demoFS)).1 = .redirect ∧
    (handle demoLib (plain .GET "/%") (load ["app"] demoFS)).1 = .final 400 ∧
    (handle demoLib ⟨.GET, "/styles.css", ifNoneMatchAny⟩ (load ["app"] demoFS)).1
      = .notModified ["app", "styles.css"] ∧
    (handle demoLib (plain .GET "/x") (load ["app"] bareFS)).1 = .final 404 := by
  decide

/-- C3, amended: when `fs.stat` resolves the fallback document to a regular file and no
segment of the static root, cut at its backslashes, has a piece equal to `..`, every GET
request that carries no conditional header field and no `Range` of bytes, whose path
percent-decodes, does not resolve to a directory under the static root, and whose lookup by
`fs.stat` does not fail with an error other than not-found, is answered with status 200 and
one of two bodies: (a) the bytes of the regular file the path resolves to within the static
root (for a path ending in `/`, the `index.html` of the directory it names), or (b) the bytes
of the fallback document. -/
theorem get_resolves_to_file_or_fallback (lib : Helpers) (dirname : Path) (fs : FS)
    (path : String) (h : Headers) (real : Path) (content : Bytes) (mtime : Nat)
    (hu : Unconditional h)
    (hdec : decodeURIComponent path.toList ≠ none)
    (hup : UP_PATH (staticRoot dirname) = false)
    (hfb : realpath fs (staticRoot dirname ++ ["index.html"])
      = .found real (.file content mtime))
    (hnodir : ∀ segs t, resolveRelative path = .ok segs t → hasTrailingSlash path = false →
      statFS fs (staticRoot dirname ++ segs) t ≠ .directory ∧
      statFS fs (staticRoot dirname ++ segs) t ≠ .failed)
    (hnofail : ∀ segs t, resolveRelative path = .ok segs t → hasTrailingSlash path = true →
      statFS fs (staticRoot dirname ++ (segs ++ ["index.html"])) false ≠ .failed) :
    (handle lib ⟨.GET, path, h⟩ (load dirname fs)).1.status = 200 ∧
    ((∃ segs t r c m, resolveRelative path = .ok segs t ∧ hasTrailingSlash path = false ∧
        realpath fs (staticRoot dirname ++ segs) = .found r (.file c m) ∧
        (handle lib ⟨.GET, path, h⟩ (load dirname fs)).1
          = .file (staticRoot dirname ++ segs) c) ∨
     (∃ segs t r c m, resolveRelative path = .ok segs t ∧ hasTrailingSlash path = true ∧
        realpath fs (staticRoot dirname ++ (segs ++ ["index.html"])) = .found r (.file c m) ∧
        (handle lib ⟨.GET, path, h⟩ (load dirname fs)).1
          = .file (staticRoot dirname ++ (segs ++ ["index.html"])) c) ∨
     (handle lib ⟨.GET, path, h⟩ (load dirname fs)).1
        = .file (staticRoot dirname ++ ["index.html"]) content) := by
  have hfall : staticStep lib fs (staticRoot dirname) ⟨.GET, path, h⟩ = .next →
      (handle lib ⟨.GET, path, h⟩ (load dirname fs)).1
        = .file (staticRoot dirname ++ ["index.html"]) content := by
    intro hnext
    rw [handle_load]
    exact fallback_of_next lib fs dirname path h real content mtime hnext hdec hu hup hfb
  have hserve : ∀ p c, staticStep lib fs (staticRoot dirname) ⟨.GET, path, h⟩
      = .respond (.file p c) →
      (handle lib ⟨.GET, path, h⟩ (load dirname fs)).1 = .file p c := by
    intro p c hs
    rw [handle_load]
    exact answer_of_respond lib fs dirname _ _ _ hs
  have key :
      (∃ segs t r c m, resolveRelative path = .ok segs t ∧ hasTrailingSlash path = false ∧
        realpath fs (staticRoot dirname ++ segs) = .found r (.file c m) ∧
        (handle lib ⟨.GET, path, h⟩ (load dirname fs)).1
          = .file (staticRoot dirname ++ segs) c) ∨
      (∃ segs t r c m, resolveRelative path = .ok segs t ∧ hasTrailingSlash path = true ∧
        realpath fs (staticRoot dirname ++ (segs ++ ["index.html"])) = .found r (.file c m) ∧
        (handle lib ⟨.GET, path, h⟩ (load dirname fs)).1
          = .file (staticRoot dirname ++ (segs ++ ["index.html"])) c) ∨
      (handle lib ⟨.GET, path, h⟩ (load dirname fs)).1
        = .file (staticRoot dirname ++ ["index.html"]) content := by
    cases hres : resolveRelative path with
    | error status =>
      exact Or.inr (Or.inr (hfall
        (staticStep_of_error lib fs _ ⟨.GET, path, h⟩ status (Or.inl rfl) hres)))
    | ok segs t =>
      by_cases hslash : hasTrailingSlash path = true
      · have hs := staticStep_index_path lib fs dirname ⟨.GET, path, h⟩ segs t (Or.inl rfl)
          hres hslash
        cases hst : statFS fs (staticRoot dirname ++ (segs ++ ["index.html"])) false with
        | failed => exact absurd hst (hnofail segs t hres hslash)
        | notFound => rw [hst] at hs; exact Or.inr (Or.inr (hfall hs))
        | directory => rw [hst] at hs; exact Or.inr (Or.inr (hfall hs))
        | file size m =>
          obtain ⟨r, c, hr, hsize, _⟩ := file_of_statFS fs _ false size m hst
          rw [hst] at hs
          simp only at hs
          rw [transferred_unconditional lib fs ⟨.GET, path, h⟩ _ _ _ hu] at hs
          unfold streamed at hs
          rw [hsize, readFS_whole fs _ r c m hr] at hs
          exact Or.inr (Or.inl ⟨segs, t, r, c, m, rfl, hslash, hr, hserve _ _ hs⟩)
      · have hslash' : hasTrailingSlash path = false := by simpa using hslash
        have hs := staticStep_file_path lib fs dirname ⟨.GET, path, h⟩ segs t (Or.inl rfl)
          hres hslash'
        unfold sendFileResult at hs
        cases hst : statFS fs (staticRoot dirname ++ segs) t with
        | failed => exact absurd hst (hnodir segs t hres hslash').2
        | directory => exact absurd hst (hnodir segs t hres hslash').1
        | notFound => rw [hst] at hs; exact Or.inr (Or.inr (hfall hs))
        | file size m =>
          obtain ⟨r, c, hr, hsize, _⟩ := file_of_statFS fs _ t size m hst
          rw [hst] at hs
          simp only at hs
          rw [transferred_unconditional lib fs ⟨.GET, path, h⟩ _ _ _ hu] at hs
          unfold streamed at hs
          rw [hsize, readFS_whole fs _ r c m hr] at hs
          exact Or.inl ⟨segs, t, r, c, m, rfl, hslash', hr, hserve _ _ hs⟩
  refine ⟨?_, key⟩
  rcases key with ⟨_, _, _, _, _, _, _, _, hk⟩ | ⟨_, _, _, _, _, _, _, _, hk⟩ | hk <;>
    rw [hk] <;> rfl

/-- Witness of `get_resolves_to_file_or_fallback`: `GET /styles.css` in the example file
system. -/
theorem get_resolves_to_file_or_fallback_witness :
    (handle demoLib ⟨.GET, "/styles.css", noHeaders⟩ (load ["app"] demoFS)).1.status = 200 :=
  (get_resolves_to_file_or_fallback demoLib ["app"] demoFS "/styles.css" noHeaders
    ["app", "index.html"] [60, 104, 116, 109, 108, 62] 1000
    ⟨rfl, rfl⟩ (by decide) (by decide) (by decide)
    (by
      intro segs t hr _
      have h0 : resolveRelative "/styles.css" = .ok ["styles.css"] false := by decide
      rw [h0] at hr
      injection hr with h1 h2
      subst h1 h2
      decide)
    (by intro segs t _ hs; exact absurd hs (by decide))).1

/-- C4, as stated, fails when the fallback document is missing and on a conditional request:
in a module directory without `index.html`, `GET /` is answered with 404; with
`If-None-Match: *`, `GET /` is answered with 304 and no body. -/
theorem root_path_not_always_fallback :
    (handle demoLib (plain .GET "/") (load ["app"] bareFS)).1 = .final 404 ∧
    (handle demoLib ⟨.GET, "/", ifNoneMatchAny⟩ (load ["app"] demoFS)).1
      = .notModified ["app", "index.html"] ∧
    (handle demoLib ⟨.GET, "/", ifNoneMatchAny⟩ (load ["app"] demoFS)).1.status = 304 := by
  decide

/-- C4, amended: when `fs.stat` resolves `path.join(__dirname, 'index.html')` to a regular
file, a GET request for `/` that carries no conditional header field and no `Range` of bytes
is answered with status 200 and the bytes of that file, the fallback document; the static
middleware serves it as the index of its root. -/
theorem root_path_gets_fallback (lib : Helpers) (dirname : Path) (fs : FS) (h : Headers)
    (real : Path) (content : Bytes) (mtime : Nat)
    (hu : Unconditional h)
    (hfb : realpath fs (fallbackPath dirname ⟨.GET, "/", h⟩)
      = .found real (.file content mtime)) :
    (handle lib ⟨.GET, "/", h⟩ (load dirname fs)).1
      = .file (fallbackPath dirname ⟨.GET, "/", h⟩) content ∧
    (handle lib ⟨.GET, "/", h⟩ (load dirname fs)).1.status = 200 := by
  rw [fallbackPath_eq] at hfb ⊢
  have hres : resolveRelative "/" = .ok [] true := by decide
  have hslash : hasTrailingSlash "/" = true := by decide
  have hs := staticStep_index_path lib fs dirname ⟨.GET, "/", h⟩ [] true (Or.inl rfl) hres
    hslash
  have hfb' : realpath fs (staticRoot dirname ++ ([] ++ ["index.html"]))
      = .found real (.file content mtime) := by simpa using hfb
  rw [statFS_of_file fs _ real content mtime hfb'] at hs
  simp only at hs
  rw [transferred_unconditional lib fs ⟨.GET, "/", h⟩ _ _ _ hu] at hs
  unfold streamed at hs
  rw [readFS_whole fs _ real content mtime hfb'] at hs
  have hh : (handle lib ⟨.GET, "/", h⟩ (load dirname fs)).1
      = .file (staticRoot dirname ++ ["index.html"]) content := by
    rw [handle_load]
    have := answer_of_respond lib fs dirname _ _ _ hs
    simpa using this
  exact ⟨hh, by rw [hh]; rfl⟩

/-- Witness of `root_path_gets_fallback`: `GET /` in the example file system. -/
theorem root_path_gets_fallback_witness :
    (handle demoLib ⟨.GET, "/", noHeaders⟩ (load ["app"] demoFS)).1
      = .file ["app", "index.html"] [60, 104, 116, 109, 108, 62] :=
  (root_path_gets_fallback demoLib ["app"] demoFS noHeaders ["app", "index.html"]
    [60, 104, 116, 109, 108, 62] 1000 ⟨rfl, rfl⟩ (by decide)).1

/-- The state is written while a request is handled: after `GET /x` the `path` fields of the
two layers hold what `Layer.match` assigned. -/
theorem layer_paths_written :
    (load ["app"] demoFS).layerPath = [none, none] ∧
    (handle demoLib (plain .GET "/x") (load ["app"] demoFS)).2.layerPath
      = [some "", some "/x"] := by
  decide

/-- C5: handling is deterministic and stateless.  In a sequence of requests handled one after
the other, each response is the one the same request receives in the initial state; a request
handled first and again after any sequence of requests in between receives identical
responses; and the response depends on the state only through the files on disk, the module
directory and the static root, not through what earlier requests left in the layers. -/
theorem repeated_request_same_response (lib : Helpers) (w : World) (reqs : List Request)
    (req : Request) :
    (run lib w reqs).1 = reqs.map (fun r => (handle lib r w).1) ∧
    (handle lib req (run lib (handle lib req w).2 reqs).2).1 = (handle lib req w).1 ∧
    (∀ w' : World, w'.fs = w.fs → w'.dirname = w.dirname → w'.root = w.root →
      (handle lib req w').1 = (handle lib req w).1) := by
  refine ⟨?_, ?_, ?_⟩
  · rw [(run_eq lib reqs w).1]
    apply List.map_congr_left
    intro r _
    exact (handle_eq lib r w).1.symm
  · obtain ⟨_, h2, h3, h4⟩ := handle_eq lib req w
    obtain ⟨_, r2, r3, r4⟩ := run_eq lib reqs (handle lib req w).2
    rw [(handle_eq lib req _).1, r2, r3, r4, h2, h3, h4, (handle_eq lib req w).1]
  · intro w' hfs hdir hroot
    rw [(handle_eq lib req w').1, (handle_eq lib req w).1, hfs, hdir, hroot]

/-- C6: handling a request, or any sequence of requests, leaves the files on disk, the module
directory and the root kept by the static middleware as they were, and with them the static
root and the fallback path. -/
theorem handling_preserves_state (lib : Helpers) (w : World) (req : Request)
    (reqs : List Request) :
    (handle lib req w).2.fs = w.fs ∧
    (handle lib req w).2.dirname = w.dirname ∧
    (handle lib req w).2.root = w.root ∧
    fallbackPath (handle lib req w).2.dirname req = fallbackPath w.dirname req ∧
    (run lib w reqs).2.fs = w.fs ∧
    (run lib w reqs).2.dirname = w.dirname ∧
    (run lib w reqs).2.root = w.root := by
  obtain ⟨_, h2, h3, h4⟩ := handle_eq lib req w
  obtain ⟨_, r2, r3, r4⟩ := run_eq lib reqs w
  exact ⟨h2, h3, h4, by rw [h3], r2, r3, r4⟩

/-- C7: the fallback document is a fixed file inside the static root.  After the module is
loaded in `__dirname` and any sequence of requests is handled, the root kept by the static
middleware is `path.join(__dirname)`, and the catch-all handler gives `res.sendFile` the same
path for every request, `index.html` directly in that root; for a module directory in normal
form, as Node provides it, the static root is `__dirname` itself and the fallback path is
`__dirname` followed by `index.html`. -/
theorem fallback_fixed_inside_root (lib : Helpers) (dirname : Path) (fs : FS)
    (reqs : List Request) (req : Request) :
    (run lib (load dirname fs) reqs).2.root = staticRoot dirname ∧
    catchAll lib req (run lib (load dirname fs) reqs).2
      = resSendFile lib req (staticRoot dirname ++ ["index.html"])
          (run lib (load dirname fs) reqs).2 ∧
    fallbackPath dirname req = staticRoot dirname ++ ["index.html"] ∧
    (Clean dirname → staticRoot dirname = dirname ∧
      fallbackPath dirname req = dirname ++ ["index.html"]) := by
  obtain ⟨_, _, r3, r4⟩ := run_eq lib reqs (load dirname fs)
  refine ⟨by rw [r4, load_root], ?_, fallbackPath_eq dirname req, ?_⟩
  · unfold catchAll
    rw [r3]
    show resSendFile lib req (fallbackPath dirname req) _ = _
    rw [fallbackPath_eq]
  · intro hc
    refine ⟨staticRoot_of_clean dirname hc, ?_⟩
    rw [fallbackPath_eq, staticRoot_of_clean dirname hc]

/-- Witness of `fallback_fixed_inside_root`: the module directory `/app`. -/
theorem fallback_fixed_inside_root_witness :
    staticRoot ["app"] = ["app"] ∧
    fallbackPath ["app"] (plain .GET "/x") = ["app", "index.html"] :=
  (fallback_fixed_inside_root demoLib ["app"] demoFS [] (plain .GET "/x")).2.2.2
    (by intro s hs; rw [List.mem_singleton] at hs; subst hs; decide)

/-- C9, as stated, fails for OPTIONS and for a path that does not decode: `OPTIONS /styles.css`
is answered by the router with status 200 and the allowed methods of the route, and
`POST /%` with 400, the error raised when the route `*` decodes the path; neither is the
not-found outcome. -/
theorem non_get_not_always_not_found :
    (handle demoLib (plain .OPTIONS "/styles.css") (load ["app"] demoFS)).1
      = .allow [.GET, .HEAD] ∧
    (handle demoLib (plain .OPTIONS "/styles.css") (load ["app"] demoFS)).1.status = 200 ∧
    (handle demoLib (plain .POST "/%") (load ["app"] demoFS)).1 = .final 400 := by
  decide

/-- C9, amended: for every request whose method is none of GET, HEAD and OPTIONS and whose
path percent-decodes, whatever its header fields, the files on disk and the state, the static
middleware passes the request on, the route registered with `app.get` does not handle the
method, and the response is the 404 of the final handler. -/
theorem other_method_not_found (lib : Helpers) (w : World) (req : Request)
    (hget : req.method ≠ .GET) (hhead : req.method ≠ .HEAD) (hopt : req.method ≠ .OPTIONS)
    (hdec : decodeURIComponent req.path.toList ≠ none) :
    (serveStatic lib req w).1 = .next ∧
    handlesMethod [.GET] req.method = false ∧
    (handle lib req w).1 = .final 404 := by
  have hs : staticStep lib w.fs w.root req = .next := by
    simp [staticStep, hget, hhead]
  have hh : handlesMethod [.GET] req.method = false := by
    cases hm : req.method <;> simp_all [handlesMethod]
  refine ⟨by rw [serveStatic_eq, hs], hh, ?_⟩
  rw [(handle_eq lib req w).1]
  unfold answer
  rw [hs]
  simp only [hh, hopt, Bool.false_eq_true, if_false]
  rw [if_neg (fun hc => hdec hc.2)]

/-- Witness of `other_method_not_found`: `DELETE /styles.css` in the example file system. -/
theorem other_method_not_found_witness :
    (handle demoLib (plain .DELETE "/styles.css") (load ["app"] demoFS)).1 = .final 404 :=
  (other_method_not_found demoLib (load ["app"] demoFS) (plain .DELETE "/styles.css")
    (by decide) (by decide) (by decide) (by decide)).2.2

/-! ## Lemmas on confinement -/

theorem walk_of_no_link (fs : FS) :
    ∀ (rest : List String) (cur : Path), Clean rest → NoLinkTo fs (cur ++ rest) →
      (∀ real e, walk fs cur rest = .found real e → real = cur ++ rest) ∧
      (∀ r, walk fs cur rest ≠ .jump r) := by
  intro rest
  induction rest with
  | nil =>
    intro cur _ _
    constructor
    · intro real e h
      simp only [walk] at h
      injection h with h1 _
      rw [← h1, List.append_nil]
    · intro r h
      simp only [walk] at h
      exact Walk.noConfusion h
  | cons seg rest ih =>
    intro cur hclean hno
    have hseg := hclean seg (List.mem_cons_self _ _)
    have hrest : Clean rest := fun s hs => hclean s (List.mem_cons_of_mem _ hs)
    have h1 : ¬ (seg = "" ∨ seg = ".") := fun h => h.elim hseg.1 hseg.2.1
    have happ : (cur ++ [seg]) ++ rest = cur ++ seg :: rest := by simp
    have hpre : cur ++ [seg] <+: cur ++ seg :: rest := ⟨rest, happ⟩
    have hw : walk fs cur (seg :: rest) =
        match fs (cur ++ [seg]) with
        | none => .missing
        | some (.link target) => .jump (target ++ rest)
        | some .dir => walk fs (cur ++ [seg]) rest
        | some (.file content mtime) =>
          if rest = [] then .found (cur ++ [seg]) (.file content mtime) else .missing := by
      rw [walk, if_neg h1, if_neg hseg.2.2]
    rw [hw]
    cases hf : fs (cur ++ [seg]) with
    | none =>
      exact ⟨fun _ _ h => Walk.noConfusion h, fun _ h => Walk.noConfusion h⟩
    | some e =>
      cases e with
      | link target => exact absurd hf (hno _ hpre target)
      | dir =>
        have := ih (cur ++ [seg]) hrest (by rw [happ]; exact hno)
        rw [happ] at this
        exact this
      | file content mtime =>
        by_cases hr : rest = []
        · subst hr
          simp only [if_true]
          constructor
          · intro real e h
            injection h with h1 _
            rw [← h1]
          · intro r h
            exact Walk.noConfusion h
        · simp only [hr, if_false]
          exact ⟨fun _ _ h => Walk.noConfusion h, fun _ h => Walk.noConfusion h⟩

theorem realpath_of_no_link (fs : FS) (path real : Path) (e : Entry) (hclean : Clean path)
    (hno : NoLinkTo fs path) (h : realpath fs path = .found real e) : real = path := by
  obtain ⟨hfound, hjump⟩ := walk_of_no_link fs path [] hclean (by simpa using hno)
  unfold realpath at h
  rw [resolve] at h
  cases hw : walk fs [] path with
  | missing => rw [hw] at h; exact Resolution.noConfusion h
  | jump r => exact absurd hw (hjump r)
  | found r e' =>
    rw [hw] at h
    injection h with h1 _
    rw [← h1]
    simpa using hfound r e' hw

theorem readFS_slice (fs : FS) (path real : Path) (content : Bytes) (mtime : Nat)
    (start len : Nat) (h : realpath fs path = .found real (.file content mtime)) :
    readFS fs path start len = (content.drop start).take len := by
  unfold readFS
  rw [h]

theorem streamed_sent (fs : FS) (req : Request) (path real : Path) (content : Bytes)
    (mtime start len : Nat) (mk : Path → Bytes → SendResult)
    (hmk : ∀ p b, (mk p b).sent = some (p, b))
    (h : realpath fs path = .found real (.file content mtime)) :
    ∃ s l, (streamed fs req path start len mk).sent = some (path, (content.drop s).take l) := by
  unfold streamed
  by_cases hm : req.method = .HEAD
  · exact ⟨0, 0, by rw [if_pos hm, hmk]; simp⟩
  · exact ⟨start, len, by rw [if_neg hm, hmk, readFS_slice fs path real content mtime _ _ h]⟩

theorem transferred_sent (lib : Helpers) (fs : FS) (req : Request) (path real : Path)
    (content : Bytes) (size mtime : Nat) (p : Path) (b : Bytes)
    (h : realpath fs path = .found real (.file content mtime))
    (hs : (transferred lib fs req path size mtime).sent = some (p, b)) :
    p = path ∧ ∃ s l, b = (content.drop s).take l := by
  have hfile : ∀ start len, (streamed fs req path start len .file).sent = some (p, b) →
      p = path ∧ ∃ s l, b = (content.drop s).take l := by
    intro start len hsent
    obtain ⟨s, l, hsl⟩ := streamed_sent fs req path real content mtime start len .file
      (fun _ _ => rfl) h
    rw [hsl] at hsent
    injection hsent with hsent
    injection hsent with h1 h2
    exact ⟨h1.symm, s, l, h2.symm⟩
  have hranged : ∀ start len, (streamed fs req path start len .ranged).sent = some (p, b) →
      p = path ∧ ∃ s l, b = (content.drop s).take l := by
    intro start len hsent
    obtain ⟨s, l, hsl⟩ := streamed_sent fs req path real content mtime start len .ranged
      (fun _ _ => rfl) h
    rw [hsl] at hsent
    injection hsent with hsent
    injection hsent with h1 h2
    exact ⟨h1.symm, s, l, h2.symm⟩
  unfold transferred at hs
  split at hs
  · exact Option.noConfusion hs
  · split at hs
    · exact Option.noConfusion hs
    · split at hs
      · split at hs
        · exact Option.noConfusion hs
        · exact hranged _ _ hs
        · exact hfile _ _ hs
      · exact hfile _ _ hs

theorem sendFileResult_sent (lib : Helpers) (fs : FS) (req : Request) (path : Path)
    (t : Bool) (p : Path) (b : Bytes)
    (hs : (sendFileResult lib fs req path t).sent = some (p, b)) :
    p = path ∧ ∃ real content mtime, realpath fs path = .found real (.file content mtime) ∧
      ∃ s l, b = (content.drop s).take l := by
  unfold sendFileResult at hs
  cases hst : statFS fs path t with
  | notFound => rw [hst] at hs; exact Option.noConfusion hs
  | failed => rw [hst] at hs; exact Option.noConfusion hs
  | directory => rw [hst] at hs; exact Option.noConfusion hs
  | file size mtime =>
    rw [hst] at hs
    obtain ⟨real, content, hr, _, _⟩ := file_of_statFS fs path t size mtime hst
    obtain ⟨h1, h2⟩ := transferred_sent lib fs req path real content size mtime p b hr hs
    exact ⟨h1, real, content, mtime, hr, h2⟩

theorem servedStep_sent (r : SendResult) (resp : Response) (p : Path) (b : Bytes)
    (h : servedStep r = .respond resp) (hs : resp.sent = some (p, b)) :
    r.sent = some (p, b) := by
  cases r with
  | file path body => injection h with h; rw [← h] at hs; exact hs
  | ranged path body => injection h with h; rw [← h] at hs; exact hs
  | notModified path => injection h with h; rw [← h] at hs; exact Option.noConfusion hs
  | directory => injection h with h; rw [← h] at hs; exact Option.noConfusion hs
  | error status afterFile =>
    simp only [servedStep] at h
    split at h <;> exact Step.noConfusion h

theorem sentStep_sent (r : SendResult) (resp : Response) (p : Path) (b : Bytes)
    (h : sentStep r = .respond resp) (hs : resp.sent = some (p, b)) :
    r.sent = some (p, b) := by
  cases r with
  | file path body => injection h with h; rw [← h] at hs; exact hs
  | ranged path body => injection h with h; rw [← h] at hs; exact hs
  | notModified path => injection h with h; rw [← h] at hs; exact Option.noConfusion hs
  | directory => exact Step.noConfusion h
  | error status afterFile => exact Step.noConfusion h

theorem staticStep_sent (lib : Helpers) (fs : FS) (dirname : Path) (req : Request)
    (resp : Response) (p : Path) (b : Bytes)
    (h : staticStep lib fs (staticRoot dirname) req = .respond resp)
    (hs : resp.sent = some (p, b)) :
    ∃ rel real content mtime, Plain rel ∧ p = staticRoot dirname ++ rel ∧
      realpath fs p = .found real (.file content mtime) ∧
      ∃ s l, b = (content.drop s).take l := by
  have hm : req.method = .GET ∨ req.method = .HEAD := by
    by_contra hne
    have hne' : req.method ≠ .GET ∧ req.method ≠ .HEAD :=
      ⟨fun e => hne (Or.inl e), fun e => hne (Or.inr e)⟩
    unfold staticStep at h
    rw [if_pos hne'] at h
    exact Step.noConfusion h
  cases hres : resolveRelative req.path with
  | error status =>
    rw [staticStep_of_error lib fs _ req status hm hres] at h
    exact Step.noConfusion h
  | ok segs t =>
    have hplain := resolveRelative_plain req.path segs t hres
    by_cases hslash : hasTrailingSlash req.path = true
    · rw [staticStep_index_path lib fs dirname req segs t hm hres hslash] at h
      have hsent := servedStep_sent _ resp p b h hs
      cases hst : statFS fs (staticRoot dirname ++ (segs ++ ["index.html"])) false with
      | notFound => rw [hst] at hsent; exact Option.noConfusion hsent
      | failed => rw [hst] at hsent; exact Option.noConfusion hsent
      | directory => rw [hst] at hsent; exact Option.noConfusion hsent
      | file size mtime =>
        rw [hst] at hsent
        obtain ⟨real, content, hr, _, _⟩ := file_of_statFS fs _ false size mtime hst
        obtain ⟨h1, h2⟩ := transferred_sent lib fs req _ real content size mtime p b hr hsent
        exact ⟨segs ++ ["index.html"], real, content, mtime,
          plain_append _ _ hplain plain_index, h1, by rw [h1]; exact hr, h2⟩
    · have hslash' : hasTrailingSlash req.path = false := by simpa using hslash
      rw [staticStep_file_path lib fs dirname req segs t hm hres hslash'] at h
      have hsent := servedStep_sent _ resp p b h hs
      obtain ⟨h1, real, content, mtime, hr, h2⟩ :=
        sendFileResult_sent lib fs req _ t p b hsent
      exact ⟨segs, real, content, mtime, hplain, h1, by rw [h1]; exact hr, h2⟩

theorem catchAllStep_sent (lib : Helpers) (fs : FS) (dirname : Path) (req : Request)
    (resp : Response) (p : Path) (b : Bytes)
    (h : catchAllStep lib fs dirname req = .respond resp)
    (hs : resp.sent = some (p, b)) :
    ∃ real content mtime, p = staticRoot dirname ++ ["index.html"] ∧
      realpath fs p = .found real (.file content mtime) ∧
      ∃ s l, b = (content.drop s).take l := by
  unfold catchAllStep at h
  have hsent := sentStep_sent _ resp p b h hs
  unfold sendAbsoluteResult at hsent
  rw [fallbackPath_eq, fallback_join] at hsent
  split at hsent
  · exact Option.noConfusion hsent
  · split at hsent
    · exact Option.noConfusion hsent
    · obtain ⟨h1, real, content, mtime, hr, h2⟩ :=
        sendFileResult_sent lib fs req _ false p b hsent
      exact ⟨real, content, mtime, h1, by rw [h1]; exact hr, h2⟩

theorem answer_sent (lib : Helpers) (fs : FS) (dirname root : Path) (req : Request)
    (p : Path) (b : Bytes) (h : (answer lib fs dirname root req).sent = some (p, b)) :
    (∃ resp, staticStep lib fs root req = .respond resp ∧ resp.sent = some (p, b)) ∨
    (∃ resp, catchAllStep lib fs dirname req = .respond resp ∧ resp.sent = some (p, b)) := by
  unfold answer at h
  cases hstep : staticStep lib fs root req with
  | respond r =>
    rw [hstep] at h
    exact Or.inl ⟨r, rfl, h⟩
  | nextErr status =>
    rw [hstep] at h
    exact Option.noConfusion h
  | next =>
    rw [hstep] at h
    simp only at h
    split at h
    · exact Option.noConfusion h
    · split at h
      · cases hc : catchAllStep lib fs dirname req with
        | respond r => rw [hc] at h; exact Or.inr ⟨r, rfl, h⟩
        | next => rw [hc] at h; exact Option.noConfusion h
        | nextErr status => rw [hc] at h; exact Option.noConfusion h
      · split at h <;> exact Option.noConfusion h

theorem clean_served (dirname : Path) (rel : List String) (h : Plain rel) :
    Clean (staticRoot dirname ++ rel) := by
  intro s hs
  rcases List.mem_append.mp hs with h1 | h1
  · exact clean_join dirname [] s h1
  · exact clean_of_plain rel h s h1

theorem decode_of_forbidden (path : String) (h : resolveRelative path = .error 403) :
    decodeURIComponent path.toList ≠ none := by
  intro hd
  unfold resolveRelative at h
  rw [hd] at h
  simp at h

/-- C8, as stated, fails on a symbolic link: `/app/link.txt` is a link to `/etc/passwd`, and
`GET /link.txt` is answered with status 200 and the bytes of `/etc/passwd`, a file outside the
static root `/app`. -/
theorem symlink_leaves_root :
    demoFS ["app", "link.txt"] = some (.link ["etc", "passwd"]) ∧
    realpath demoFS ["app", "link.txt"]
      = .found ["etc", "passwd"] (.file [114, 111, 111, 116] 6000) ∧
    (handle demoLib (plain .GET "/link.txt") (load ["app"] demoFS)).1
      = .file ["app", "link.txt"] [114, 111, 111, 116] := by
  decide

/-- C8, amended: whatever the request, a response that carries bytes of a file (status 200 or
206) carries bytes of the file that the file system finds at a path inside the static root:
the path given to `fs.stat` and to the read stream is the static root followed by segments
none of which is empty, `.` or `..` or contains a slash, `fs.stat` resolves it to a regular
file, the body is a run of consecutive bytes of that file's content, and when no symbolic link
is stored at that path or at a directory above it the file is stored at that very path.  A GET
request without conditional header field and `Range` of bytes whose path climbs out of the
root (error 403 of `send`) is answered with the fallback document, when `fs.stat` resolves it
to a regular file and no segment of the static root, cut at its backslashes, has a piece equal
to `..`. -/
theorem served_file_inside_root (lib : Helpers) (dirname : Path) (fs : FS) (req : Request) :
    (∀ path body, (handle lib req (load dirname fs)).1.sent = some (path, body) →
      ∃ rel real content mtime, Plain rel ∧ path = staticRoot dirname ++ rel ∧
        realpath fs path = .found real (.file content mtime) ∧
        (∃ start len, body = (content.drop start).take len) ∧
        (NoLinkTo fs path → real = path)) ∧
    (∀ real content mtime, req.method = .GET → Unconditional req.headers →
      resolveRelative req.path = .error 403 →
      UP_PATH (staticRoot dirname) = false →
      realpath fs (staticRoot dirname ++ ["index.html"]) = .found real (.file content mtime) →
      (handle lib req (load dirname fs)).1
        = .file (staticRoot dirname ++ ["index.html"]) content) := by
  constructor
  · intro path body h
    rw [handle_load] at h
    rcases answer_sent lib fs dirname _ req path body h with ⟨resp, hs, hsent⟩ | ⟨resp, hc, hsent⟩
    · obtain ⟨rel, real, content, mtime, hplain, hp, hr, hsl⟩ :=
        staticStep_sent lib fs dirname req resp path body hs hsent
      refine ⟨rel, real, content, mtime, hplain, hp, hr, hsl, ?_⟩
      intro hno
      exact realpath_of_no_link fs path real _ (by rw [hp]; exact clean_served dirname rel hplain)
        hno hr
    · obtain ⟨real, content, mtime, hp, hr, hsl⟩ :=
        catchAllStep_sent lib fs dirname req resp path body hc hsent
      refine ⟨["index.html"], real, content, mtime, plain_index, hp, hr, hsl, ?_⟩
      intro hno
      exact realpath_of_no_link fs path real _
        (by rw [hp]; exact clean_served dirname _ plain_index) hno hr
  · intro real content mtime hm hu hres hup hfb
    have hreq : req = ⟨.GET, req.path, req.headers⟩ := by
      cases req with
      | mk m p h => simp only at hm; rw [hm]
    have hnext : staticStep lib fs (staticRoot dirname) req = .next :=
      staticStep_of_error lib fs _ req 403 (Or.inl hm) hres
    rw [handle_load]
    rw [hreq] at hnext ⊢
    exact fallback_of_next lib fs dirname req.path req.headers real content mtime hnext
      (decode_of_forbidden _ hres) hu hup hfb

/-- Witness of `served_file_inside_root`: `GET /%2e%2e/etc/passwd` in the example file
system is answered with the fallback document, stored in the static root `/app`; the file
`/etc/passwd` exists and is not returned. -/
theorem served_file_inside_root_witness :
    realpath demoFS ["etc", "passwd"]
      = .found ["etc", "passwd"] (.file [114, 111, 111, 116] 6000) ∧
    (handle demoLib (plain .GET "/%2e%2e/etc/passwd") (load ["app"] demoFS)).1
      = .file ["app", "index.html"] [60, 104, 116, 109, 108, 62] ∧
    ∃ rel real content mtime, Plain rel ∧ ["app", "index.html"] = staticRoot ["app"] ++ rel ∧
      realpath demoFS ["app", "index.html"] = .found real (.file content mtime) ∧
      (∃ start len, [60, 104, 116, 109, 108, 62] = (content.drop start).take len) ∧
      (NoLinkTo demoFS ["app", "index.html"] → real = ["app", "index.html"]) :=
  ⟨by decide,
   (served_file_inside_root demoLib ["app"] demoFS (plain .GET "/%2e%2e/etc/passwd")).2
      ["app", "index.html"] [60, 104, 116, 109, 108, 62] 1000 rfl ⟨rfl, rfl⟩
      (by decide) (by decide) (by decide),
   (served_file_inside_root demoLib ["app"] demoFS (plain .GET "/%2e%2e/etc/passwd")).1
      ["app", "index.html"] [60, 104, 116, 109, 108, 62] (by decide)⟩

/-! ## Lemmas on plain file names -/

theorem tokens_of_plain (s : List Char) (h : ∀ c ∈ s, c ≠ '%') :
    tokens s = some (s.map Tok.lit) := by
  induction s with
  | nil => rfl
  | cons c s ih =>
    rw [tokens_literal c s (h c (List.mem_cons_self _ _)),
      ih (fun x hx => h x (List.mem_cons_of_mem _ hx))]
    rfl

theorem utf8_of_literals (s : List Char) : utf8 (s.map Tok.lit) = some s := by
  induction s with
  | nil => rfl
  | cons c s ih =>
    rw [List.map_cons, utf8_literal, ih]
    rfl

theorem decodeURIComponent_of_plain (s : List Char) (h : ∀ c ∈ s, c ≠ '%') :
    decodeURIComponent s = some s := by
  unfold decodeURIComponent
  rw [tokens_of_plain s h]
  exact utf8_of_literals s

theorem splitChars_of_plain (sep : Char) (s : List Char) (h : sep ∉ s) :
    splitChars sep s = [s] := by
  induction s with
  | nil => rfl
  | cons c s ih =>
    have hc : c ≠ sep := fun e => h (by rw [e]; exact List.mem_cons_self _ _)
    have hs : sep ∉ s := fun hm => h (List.mem_cons_of_mem _ hm)
    rw [splitChars, if_neg hc, ih hs]

theorem resolveRelative_of_plainName (name : String) (h : PlainName name) :
    resolveRelative ("/" ++ name) = .ok [name] false := by
  obtain ⟨hne, hdot, hchars⟩ := h
  have hnl : name.toList ≠ [] := by
    intro e
    apply hne
    have : name = String.mk name.toList := rfl
    rw [this, e]
  have hraw : ("/" ++ name).toList = '/' :: name.toList := by
    show ("/" ++ name).data = _
    rw [String.data_append]
    rfl
  have hnopct : ∀ c ∈ '/' :: name.toList, c ≠ '%' := by
    intro c hc
    rcases List.mem_cons.mp hc with rfl | hc
    · decide
    · exact (hchars c hc).1
  have hslash : '/' ∉ name.toList := fun hm => (hchars '/' hm).2.1 rfl
  have hback : '\\' ∉ name.toList := fun hm => (hchars '\\' hm).2.2.1 rfl
  have hnul : Char.ofNat 0 ∉ ('/' :: name.toList) := by
    intro hm
    rcases List.mem_cons.mp hm with e | hm
    · exact absurd e (by decide)
    · exact (hchars _ hm).2.2.2 rfl
  have hfirst : ∀ c rest, name.toList = c :: rest → c ≠ '.' := by
    intro c rest e hc
    unfold startsWithDot at hdot
    rw [e] at hdot
    simp [hc] at hdot
  have hn1 : name ≠ "." := by
    intro e
    exact hfirst '.' [] (by rw [e]; rfl) rfl
  have hn2 : name ≠ ".." := by
    intro e
    exact hfirst '.' ['.'] (by rw [e]; rfl) rfl
  have hsplit : (splitChars '/' ('/' :: name.toList)).map String.mk = ["", name] := by
    rw [splitChars, if_pos rfl, splitChars_of_plain '/' _ hslash]
    rfl
  have hnorm : normalizeString ["", name] true = [name] := by
    simp [normalizeString, pushSegment, hne, hn1, hn2]
  have hup : UP_PATH [name] = false := by
    unfold UP_PATH
    rw [List.any_cons, List.any_nil, Bool.or_false, splitChars_of_plain '\\' _ hback,
      List.any_cons, List.any_nil, Bool.or_false]
    cases hl : name.toList with
    | nil => exact absurd hl hnl
    | cons c rest =>
      have hc := hfirst c rest hl
      rw [Bool.eq_false_iff]
      intro hd
      have he : c :: rest = ['.', '.'] := by simpa using hd
      injection he with he _
      exact hc he
  have hlast : ('/' :: name.toList).getLast? ≠ some '/' := by
    intro e
    cases hl : name.toList with
    | nil => exact absurd hl hnl
    | cons c rest =>
      rw [hl, List.getLast?_cons_cons] at e
      have hm : '/' ∈ c :: rest := List.mem_of_mem_getLast? (by rw [e]; rfl)
      rw [← hl] at hm
      exact hslash hm
  have hlast' : ¬ ('/' :: name.data).getLast? = some '/' := hlast
  have hparts : relativeParts ('/' :: name.toList) [name] = [name] := by
    unfold relativeParts
    simp [hlast']
  have hdotfile : dotfileIgnored [name] = false := by
    unfold dotfileIgnored
    simp [hdot]
  have hcontains : ('/' :: name.toList).contains (Char.ofNat 0) = false := by
    rw [List.contains_eq_any_beq]
    rw [Bool.eq_false_iff]
    intro hany
    rw [List.any_eq_true] at hany
    obtain ⟨x, hx, hbeq⟩ := hany
    have : Char.ofNat 0 = x := by simpa using hbeq
    exact hnul (by rw [this]; exact hx)
  unfold resolveRelative
  rw [hraw, decodeURIComponent_of_plain _ hnopct]
  simp only [hcontains, Bool.false_eq_true, if_false, hsplit, hnorm, hup, hparts, hdotfile]
  simp [hlast']

/-- C10, as stated, fails on a dotfile: `/app/.npmrc` is a file of the module directory, yet
for `GET /.npmrc` the static middleware passes the request on, since `send` ignores a path
whose last part begins with a dot, and the answer is the fallback document. -/
theorem dotfile_of_module_directory_not_served :
    realpath demoFS ["app", ".npmrc"] = .found ["app", ".npmrc"] (.file [97, 61, 98] 4500) ∧
    (serveStatic demoLib (plain .GET "/.npmrc") (load ["app"] demoFS)).1 = .next ∧
    (handle demoLib (plain .GET "/.npmrc") (load ["app"] demoFS)).1
      = .file ["app", "index.html"] [60, 104, 116, 109, 108, 62] := by
  decide

/-- C10, amended: the static root is the directory that contains the server module, and the
module excludes no file of it whose name is not empty, does not begin with a dot and holds
none of `%`, `/`, backslash and NUL (`index.js`, the module's own source, is such a name): for
every such name, a GET request for `/name` that carries no conditional header field and no
`Range` of bytes is answered with status 200 and the bytes of the file
`path.join(__dirname, name)` whenever `fs.stat` resolves it to a regular file; that path is
the static root followed by the name, and differs from the fallback path unless the name is
`index.html`. -/
theorem module_file_served (lib : Helpers) (dirname : Path) (fs : FS) (name : String)
    (h : Headers) (real : Path) (content : Bytes) (mtime : Nat)
    (hn : PlainName name)
    (hu : Unconditional h)
    (hfile : realpath fs (join dirname [name]) = .found real (.file content mtime)) :
    (handle lib ⟨.GET, "/" ++ name, h⟩ (load dirname fs)).1
      = .file (join dirname [name]) content ∧
    (handle lib ⟨.GET, "/" ++ name, h⟩ (load dirname fs)).1.status = 200 ∧
    join dirname [name] = staticRoot dirname ++ [name] ∧
    (name ≠ "index.html" →
      join dirname [name] ≠ fallbackPath dirname ⟨.GET, "/" ++ name, h⟩) := by
  have hres := resolveRelative_of_plainName name hn
  have hplain := resolveRelative_plain ("/" ++ name) [name] false hres
  have hj : join dirname [name] = staticRoot dirname ++ [name] :=
    join_of_clean dirname [name] (clean_of_plain _ hplain)
  rw [hj] at hfile ⊢
  have hstep : staticStep lib fs (staticRoot dirname) ⟨.GET, "/" ++ name, h⟩
      = .respond (.file (staticRoot dirname ++ [name]) content) := by
    rw [staticStep_file_path lib fs dirname ⟨.GET, "/" ++ name, h⟩ [name] false (Or.inl rfl)
      hres (hasTrailingSlash_of_resolved _ _ hres),
      sendFileResult_of_file lib fs ⟨.GET, "/" ++ name, h⟩ _ real content mtime hu hfile]
    rfl
  have hh : (handle lib ⟨.GET, "/" ++ name, h⟩ (load dirname fs)).1
      = .file (staticRoot dirname ++ [name]) content := by
    rw [handle_load]
    exact answer_of_respond lib fs dirname _ _ _ hstep
  refine ⟨hh, by rw [hh]; rfl, rfl, ?_⟩
  intro hne e
  rw [fallbackPath_eq] at e
  have := List.append_cancel_left e
  injection this with h1 _
  exact hne h1

/-- Witness of `module_file_served`: `GET /index.js` in the example file system. -/
theorem module_file_served_witness :
    (handle demoLib ⟨.GET, "/index.js", noHeaders⟩ (load ["app"] demoFS)).1
      = .file ["app", "index.js"] [47, 47] :=
  (module_file_served demoLib ["app"] demoFS "index.js" noHeaders ["app", "index.js"]
    [47, 47] 3000 ⟨by decide, by decide, by decide⟩ ⟨rfl, rfl⟩ (by decide)).1

end LinkCheck
